import Mathlib

/-!
# flysky-updater: frame codec, serial exchanges and the chunked upload

A shallow embedding of `flysky_updater.go`.  The serial library
(`github.com/tarm/serial`) is not part of the repository, so the port is a
parameter: a deterministic state machine `Serial σ` with a `Write` and a
`Read` operation.  Every Go function that takes `s *serial.Port` becomes a
function that takes the driver `T : Serial σ` and the port state and returns
its result together with the new port state.  The port state also records
every byte sequence handed to `s.Write`, which is how the theorems speak
about the frames a function has written.

Go's three ways of leaving a function are kept apart in `Res`: a returned
value with a nil error, a returned non-nil error, and a run-time panic
(negative `make`, slice bounds out of range, index out of range).

Bytes are `Fin 256`; 16-bit arithmetic is done on `Nat` with an explicit
`% 65536`.  The loop of `EmptyRx` has no bound in the source (it runs as long
as input arrives), so its translation takes a limit on the number of reads
and returns `none` when the limit is reached; `update` passes the limit on
and returns `none` in that case only.

The definitions come first: the program, then the frames and exchanges the
claims speak about, a simulated serial line to run the program on, and a
recorder that can be put on the reads of any port.  The theorems follow,
grouped by component.
-/

namespace Flysky

/-- One octet. -/
abbrev Byte := Fin 256

/-- Go's conversion `byte(v)`: keep the low eight bits. -/
def byte (v : Nat) : Byte := ⟨v % 256, Nat.mod_lt v (by decide)⟩

/-- Go's conversion `uint16(v)` of a non-negative `int`. -/
def uint16 (v : Nat) : Nat := v % 65536

/-- The two bytes `binary.LittleEndian.PutUint16` stores for the 16-bit value `v`. -/
def PutUint16 (v : Nat) : List Byte := [byte v, byte (v / 256)]

/-- The value `binary.LittleEndian.Uint16` reads from two bytes. -/
def Uint16 (b0 b1 : Byte) : Nat := b0.val + 256 * b1.val

/-- The errors the program creates with `errors.New`, and the errors of the serial library. -/
inductive Err where
  | transport (code : Nat)
  | shortWrite
  | readTimeout
  | invalidResponse
  | invalidChecksum
  | unexpectedPing
  | unexpectedResponse
  | firmwareSize
  deriving DecidableEq

/-- Outcome of a Go call: a value with a nil error, a non-nil error, or a run-time panic. -/
inductive Res (α : Type) where
  | ok (a : α)
  | err (e : Err)
  | panic
  deriving DecidableEq

/-- What `s.Write(raw)` returns: the count `n` and the error, if any. -/
structure WriteResult where
  n : Nat
  err : Option Nat
  deriving DecidableEq

/-- What `s.Read(buf)` returns: the bytes stored at the front of `buf` (their number is the
count `c`) and the error, if any. -/
structure ReadResult where
  data : List Byte
  err : Option Nat
  deriving DecidableEq

/-- The serial driver and the device behind it, as a deterministic state machine.  `read d m`
is a `Read` into a buffer of `m` bytes; it never returns more than `m` bytes. -/
structure Serial (σ : Type) where
  write : σ → List Byte → WriteResult × σ
  read : σ → Nat → ReadResult × σ
  read_le : ∀ d m, (read d m).1.data.length ≤ m

/-- State of an open port: the state of the driver and device, and the history of the byte
sequences handed to `s.Write`, oldest first. -/
structure Port (σ : Type) where
  dev : σ
  sent : List (List Byte)
  deriving DecidableEq

variable {σ : Type}

/-- Source `make_checksum`: a `uint16` starting at `0xFFFF`, each byte subtracted with
wrap-around, stored little-endian. -/
def make_checksum (payload : List Byte) : List Byte :=
  PutUint16 (payload.foldl (fun checksum b => (checksum + 65536 - b.val) % 65536) 0xFFFF)

/-- Source `WriteAll` (the verbose branch only prints). -/
def WriteAll (T : Serial σ) (s : Port σ) (raw : List Byte) : Res Unit × Port σ :=
  let r := T.write s.dev raw
  let s1 : Port σ := ⟨r.2, s.sent ++ [raw]⟩
  match r.1.err with
  | some code => (Res.err (Err.transport code), s1)
  | none => if r.1.n ≠ raw.length then (Res.err Err.shortWrite, s1) else (Res.ok (), s1)

/-- Source `WriteFrame`. -/
def WriteFrame (T : Serial σ) (s : Port σ) (payload : List Byte) : Res Unit × Port σ :=
  let length := PutUint16 (uint16 (payload.length + 4))
  let frame := length ++ payload
  let frame := frame ++ make_checksum frame
  WriteAll T s frame

/-- The loop of source `ReadAll`: `missing` is `n - bytes_read`, `acc` is the filled front of
`buf`.  Every turn that does not return stores at least one byte, so `missing` turns are
enough; the first argument counts them down. -/
def ReadAllLoop (T : Serial σ) : Nat → Nat → List Byte → Port σ → Res (List Byte) × Port σ
  | 0, _, acc, s => (Res.ok acc, s)
  | turns + 1, missing, acc, s =>
    if missing = 0 then (Res.ok acc, s)
    else
      let r := T.read s.dev missing
      let s1 : Port σ := ⟨r.2, s.sent⟩
      match r.1.err with
      | some code => (Res.err (Err.transport code), s1)
      | none =>
        if r.1.data.length = 0 then (Res.err Err.readTimeout, s1)
        else ReadAllLoop T turns (missing - r.1.data.length) (acc ++ r.1.data) s1

/-- Source `ReadAll`; `make([]byte, n)` panics for a negative `n`. -/
def ReadAll (T : Serial σ) (s : Port σ) (n : Int) : Res (List Byte) × Port σ :=
  if n < 0 then (Res.panic, s) else ReadAllLoop T n.toNat n.toNat [] s

/-- Source `EmptyRx`: read into a 1024-byte buffer until a read stores nothing; the error is
ignored.  The loop has no bound of its own, so the first argument limits the number of reads
and `none` means that the limit was reached with input still arriving. -/
def EmptyRx (T : Serial σ) : Nat → Port σ → Option (Port σ)
  | 0, _ => none
  | reads + 1, s =>
    let r := T.read s.dev 1024
    let s1 : Port σ := ⟨r.2, s.sent⟩
    if r.1.data.length > 0 then EmptyRx T reads s1 else some s1

/-- Source `ReadFrame` (the verbose branch only prints). -/
def ReadFrame (T : Serial σ) (s : Port σ) : Res (List Byte) × Port σ :=
  match ReadAll T s 3 with
  | (Res.panic, s1) => (Res.panic, s1)
  | (Res.err e, s1) => (Res.err e, s1)
  | (Res.ok head, s1) =>
    match head with
    | [h0, h1, h2] =>
      if h0 ≠ 0x55 then (Res.err Err.invalidResponse, s1)
      else
        let size : Int := (Uint16 h1 h2 : Nat)
        match ReadAll T s1 (size - 3) with
        | (Res.panic, s2) => (Res.panic, s2)
        | (Res.err e, s2) => (Res.err e, s2)
        | (Res.ok body, s2) =>
          if body.length < 2 then (Res.panic, s2)
          else
            let payload := body.take (body.length - 2)
            let checksum := body.drop (body.length - 2)
            let checksum_cmp := make_checksum (head ++ payload)
            if checksum ≠ checksum_cmp then (Res.err Err.invalidChecksum, s2)
            else (Res.ok payload, s2)
    | _ => (Res.panic, s1)

/-- Source `ping`; `answer[0]` panics on an empty answer. -/
def ping (T : Serial σ) (s : Port σ) : Res (List Byte) × Port σ :=
  match WriteFrame T s [0xC0] with
  | (Res.panic, s1) => (Res.panic, s1)
  | (Res.err e, s1) => (Res.err e, s1)
  | (Res.ok _, s1) =>
    match ReadFrame T s1 with
    | (Res.panic, s2) => (Res.panic, s2)
    | (Res.err e, s2) => (Res.err e, s2)
    | (Res.ok answer, s2) =>
      match answer with
      | [] => (Res.panic, s2)
      | a0 :: _ =>
        if a0 ≠ 0xC0 then (Res.err Err.unexpectedPing, s2) else (Res.ok answer, s2)

/-- Source `communicate`.  On a mismatch the source evaluates `errors.New(...)` as a statement
and drops the value; both branches then reach `return nil`. -/
def communicate (T : Serial σ) (s : Port σ) (request response : List Byte) :
    Res Unit × Port σ :=
  match WriteFrame T s request with
  | (Res.panic, s1) => (Res.panic, s1)
  | (Res.err e, s1) => (Res.err e, s1)
  | (Res.ok _, s1) =>
    match ReadFrame T s1 with
    | (Res.panic, s2) => (Res.panic, s2)
    | (Res.err e, s2) => (Res.err e, s2)
    | (Res.ok msg, s2) =>
      let _dropped : Option Err := if msg ≠ response then some Err.unexpectedResponse else none
      (Res.ok (), s2)

/-- The request body built in source `ask_write`. -/
def ask_permission (address : Nat) : List Byte :=
  [0xc2] ++ PutUint16 (uint16 address) ++
    [0x00, 0x09, 0x00, 0x00, 0x00, 0x00, 0x00, 0x00, 0x00, 0x00]

/-- The acknowledgement template built in source `ask_write`. -/
def get_permission (address : Nat) : List Byte :=
  [0xc2, 0x80] ++ PutUint16 (uint16 address) ++
    [0x00, 0x09, 0x00, 0x00, 0x00, 0x00, 0x00, 0x00, 0x00, 0x00]

/-- Source `ask_write`. -/
def ask_write (T : Serial σ) (s : Port σ) (address : Nat) : Res Unit × Port σ :=
  communicate T s (ask_permission address) (get_permission address)

/-- The request body built in source `write_chunk`. -/
def write_instruction (address : Nat) (data : List Byte) : List Byte :=
  [0xc3] ++ PutUint16 (uint16 address) ++ [0x00, 0x00, 0x00, 0x01] ++ data

/-- The confirmation template of source `write_chunk`. -/
def write_confirmation : List Byte := [0xc3, 0x00, 0x00, 0x00, 0x00]

/-- Source `write_chunk`. -/
def write_chunk (T : Serial σ) (s : Port σ) (address : Nat) (data : List Byte) :
    Res Unit × Port σ :=
  communicate T s (write_instruction address data) write_confirmation

/-- Source `restart`. -/
def restart (T : Serial σ) (s : Port σ) : Res Unit × Port σ :=
  WriteFrame T s [0xC1, 0x00]

/-- Go's slice expression `xs[lo:hi]` on a slice whose capacity equals its length: `none`
stands for the run-time panic. -/
def slice (xs : List Byte) (lo hi : Nat) : Option (List Byte) :=
  if lo ≤ hi ∧ hi ≤ xs.length then some ((xs.drop lo).take (hi - lo)) else none

/-- How the inner `for chunk` loop of source `update` is left. -/
inductive Flow where
  | next (tries : Nat)
  | again (tries : Nat)
  | crash
  deriving DecidableEq

/-- The inner loop of source `update` over the remaining values of `chunk`.  `Flow.again` is
the `goto ask` taken after `EmptyRx`, `Flow.next` the normal end of the loop. -/
def chunkLoop (T : Serial σ) (reads : Nat) (firmware : List Byte) (bytes_written : Nat) :
    List Nat → Nat → Port σ → Option (Flow × Port σ)
  | [], tries, s => some (Flow.next tries, s)
  | chunk :: rest, tries, s =>
    let offset := bytes_written + chunk
    let end_ := offset + 256
    match slice firmware offset end_ with
    | none => some (Flow.crash, s)
    | some data =>
      match write_chunk T s (0x1800 + offset) data with
      | (Res.panic, s1) => some (Flow.crash, s1)
      | (Res.ok _, s1) => chunkLoop T reads firmware bytes_written rest tries s1
      | (Res.err _, s1) =>
        if tries + 1 ≤ 3 then
          match EmptyRx T reads s1 with
          | none => none
          | some s2 => some (Flow.again (tries + 1), s2)
        else chunkLoop T reads firmware bytes_written rest (tries + 1) s1

/-- The values `chunk` takes in `for chunk := 0; chunk < 1024; chunk += 256`. -/
def chunkOffsets : List Nat := [0, 256, 512, 768]

/-- One turn of the outer loop of source `update`, from the label `ask`.  The first argument
bounds the number of times the label is reached; `tries` is increased before every `goto`
and a `goto` needs `tries <= 3`, so four are enough. -/
def askLoop (T : Serial σ) (reads : Nat) (firmware : List Byte) (bytes_written : Nat) :
    Nat → Nat → Port σ → Option (Res Unit × Port σ)
  | 0, _, _ => none
  | gas + 1, tries, s =>
    match ask_write T s (0x1800 + bytes_written) with
    | (Res.panic, s1) => some (Res.panic, s1)
    | (Res.err _, s1) =>
      if tries + 1 ≤ 3 then
        match EmptyRx T reads s1 with
        | none => none
        | some s2 => askLoop T reads firmware bytes_written gas (tries + 1) s2
      else
        match chunkLoop T reads firmware bytes_written chunkOffsets (tries + 1) s1 with
        | none => none
        | some (Flow.crash, s2) => some (Res.panic, s2)
        | some (Flow.again t, s2) => askLoop T reads firmware bytes_written gas t s2
        | some (Flow.next _, s2) => some (Res.ok (), s2)
    | (Res.ok _, s1) =>
      match chunkLoop T reads firmware bytes_written chunkOffsets tries s1 with
      | none => none
      | some (Flow.crash, s2) => some (Res.panic, s2)
      | some (Flow.again t, s2) => askLoop T reads firmware bytes_written gas t s2
      | some (Flow.next _, s2) => some (Res.ok (), s2)

/-- The outer loop of source `update`; the first argument bounds the number of turns. -/
def blockLoop (T : Serial σ) (reads : Nat) (firmware : List Byte) :
    Nat → Nat → Port σ → Option (Res Unit × Port σ)
  | 0, bytes_written, s => if bytes_written < firmware.length then none else some (Res.ok (), s)
  | gas + 1, bytes_written, s =>
    if bytes_written < firmware.length then
      match askLoop T reads firmware bytes_written 4 0 s with
      | none => none
      | some (Res.ok _, s1) => blockLoop T reads firmware gas (bytes_written + 1024) s1
      | some (Res.err e, s1) => some (Res.err e, s1)
      | some (Res.panic, s1) => some (Res.panic, s1)
    else some (Res.ok (), s)

/-- Source `update` (the progress bar only prints).  `reads` is the limit given to every call
of `EmptyRx`; `none` means that one of them did not finish within it. -/
def update (T : Serial σ) (reads : Nat) (s : Port σ) (firmware : List Byte) :
    Option (Res Unit × Port σ) :=
  blockLoop T reads firmware (firmware.length / 1024 + 1) 0 s

/-- Go's `copy(dst, src)`: the first `min (len dst) (len src)` bytes of `dst` are replaced. -/
def copy (dst src : List Byte) : List Byte :=
  src.take (min dst.length src.length) ++ dst.drop (min dst.length src.length)

/-- Go's `make([]byte, n)`. -/
def make (n : Nat) : List Byte := List.replicate n 0

/-- The loader in source `main`, first part (from `var data []byte` to the end of the
`if len(raw) > 0xE7FF` statement): the buffer `data`. -/
def stripHeader (raw : List Byte) : Res (List Byte) :=
  if raw.length > 0xE7FF then
    let data := make (raw.length - 0x1800)
    match slice raw 1800 data.length with
    | none => Res.panic
    | some src => Res.ok (copy data src)
  else
    let data := make raw.length
    match slice raw 0 data.length with
    | none => Res.panic
    | some src => Res.ok (copy data src)

/-- The loader in source `main` with its size test: the image handed on to `ping` and
`update`, or the rejection `Unexpected firmare size`. -/
def loadImage (raw : List Byte) : Res (List Byte) :=
  match stripHeader raw with
  | Res.ok data =>
    if data.length < 0x9000 ∨ data.length > 0xe7ff then Res.err Err.firmwareSize
    else Res.ok data
  | r => r

/-- The claim's `LE16 n`: low byte, then high byte. -/
def LE16 (n : Nat) : List Byte := [byte (n % 256), byte (n / 256)]

/-- The frame source `WriteFrame` builds and passes to `WriteAll`. -/
def hostFrame (payload : List Byte) : List Byte :=
  PutUint16 (uint16 (payload.length + 4)) ++ payload ++
    make_checksum (PutUint16 (uint16 (payload.length + 4)) ++ payload)

/-- A device-to-host frame as the spec lays it out: marker `0x55`, total size, payload,
checksum over everything before it. -/
def deviceFrame (P : List Byte) : List Byte :=
  [0x55] ++ LE16 (P.length + 5) ++ P ++ make_checksum ([0x55] ++ LE16 (P.length + 5) ++ P)

/-- The sum of the unsigned byte values of `B`. -/
def byteSum (B : List Byte) : Nat := (B.map (fun b => b.val)).sum

/-- The accumulator of source `make_checksum` after the bytes `B`, started at `c`. -/
def acc16 (B : List Byte) (c : Nat) : Nat :=
  B.foldl (fun checksum b => (checksum + 65536 - b.val) % 65536) c

/-- A raw file of `n` bytes whose byte at index `i` is `i mod 256`. -/
def ramp (n : Nat) : List Byte := (List.range n).map byte

/-- One entry of a read schedule: the next `Read` stores at most `k` bytes (none for `k = 0`,
which is a timeout), or it fails with an error of the serial library. -/
inductive ReadEv where
  | upTo (k : Nat)
  | fault (code : Nat)
  deriving DecidableEq

/-- A schedule entry that lets data through. -/
def ReadEv.delivers : ReadEv → Bool
  | ReadEv.upTo k => decide (0 < k)
  | ReadEv.fault _ => false

/-- A simulated device on a simulated line.  `rx` holds the bytes on their way to the host,
`plan` says how the coming reads split them (after the plan every read stores all it can), and
`script` says for each coming `Write` whether the device answers it. -/
structure Sim where
  rx : List Byte
  plan : List ReadEv
  script : List Bool
  deriving DecidableEq

/-- The payload with which the simulated device answers a host frame: the acknowledgement of
request-write with the address echoed, the confirmation of write-chunk, the answer to ping. -/
def reply : List Byte → List Byte
  | _ :: _ :: op :: a0 :: a1 :: _ =>
    if op = 0xc2 then
      [0xc2, 0x80, a0, a1, 0x00, 0x09, 0x00, 0x00, 0x00, 0x00, 0x00, 0x00, 0x00, 0x00]
    else if op = 0xc3 then write_confirmation
    else if op = 0xc0 then [0xc0, 0x80]
    else []
  | _ => []

/-- The simulated serial line.  Every write is accepted whole; the device answers it with a
device frame when the script says so and stays silent otherwise. -/
def sim : Serial Sim where
  write d raw :=
    match d.script with
    | true :: script => (⟨raw.length, none⟩, ⟨d.rx ++ deviceFrame (reply raw), d.plan, script⟩)
    | _ :: script => (⟨raw.length, none⟩, ⟨d.rx, d.plan, script⟩)
    | [] => (⟨raw.length, none⟩, d)
  read d m :=
    match d.plan with
    | [] => (⟨d.rx.take m, none⟩, ⟨d.rx.drop m, [], d.script⟩)
    | ReadEv.upTo k :: plan => (⟨d.rx.take (min k m), none⟩, ⟨d.rx.drop (min k m), plan, d.script⟩)
    | ReadEv.fault code :: plan => (⟨[], some code⟩, ⟨d.rx, plan, d.script⟩)
  read_le d m := by
    rcases d with ⟨rx, plan, script⟩
    cases plan with
    | nil => simp
    | cons ev plan =>
      cases ev with
      | upTo k => simp
      | fault code => simp

/-- The frame `update` sends to ask for the block at `bytes_written`. -/
def askFrame (bytes_written : Nat) : List Byte :=
  hostFrame (ask_permission (0x1800 + bytes_written))

/-- The frame `update` sends for the sub-chunk `chunk` of the block at `bytes_written`. -/
def chunkFrame (firmware : List Byte) (bytes_written chunk : Nat) : List Byte :=
  hostFrame (write_instruction (0x1800 + (bytes_written + chunk))
    ((firmware.drop (bytes_written + chunk)).take 256))

/-- The five frames of one complete attempt at the block at `bytes_written`. -/
def blockFrames (firmware : List Byte) (bytes_written : Nat) : List (List Byte) :=
  askFrame bytes_written :: chunkOffsets.map (chunkFrame firmware bytes_written)

/-- The frames of `blocks` consecutive blocks, each attempted once, from `bytes_written` on. -/
def framesFrom (firmware : List Byte) : Nat → Nat → List (List Byte)
  | _, 0 => []
  | bytes_written, blocks + 1 =>
    blockFrames firmware bytes_written ++ framesFrom firmware (bytes_written + 1024) blocks

/-- The frames of one block on a line whose device never answers: four requests, then the
four sub-chunks. -/
def deadBlock (firmware : List Byte) (bytes_written : Nat) : List (List Byte) :=
  List.replicate 4 (askFrame bytes_written) ++
    chunkOffsets.map (chunkFrame firmware bytes_written)

/-- The frames of `blocks` consecutive blocks on a line whose device never answers. -/
def deadFrames (firmware : List Byte) : Nat → Nat → List (List Byte)
  | _, 0 => []
  | bytes_written, blocks + 1 =>
    deadBlock firmware bytes_written ++ deadFrames firmware (bytes_written + 1024) blocks

/-- One exchange issued by `update`, as the claims name them: `ask_write(address)` or
`write_chunk(address, data)`. -/
inductive Exchange where
  | ask (address : Nat)
  | chunk (address : Nat) (data : List Byte)

/-- The frame an exchange puts on the line. -/
def Exchange.frame : Exchange → List Byte
  | Exchange.ask address => hostFrame (ask_permission address)
  | Exchange.chunk address data => hostFrame (write_instruction address data)

/-- The firmware bytes an exchange carries. -/
def Exchange.data : Exchange → List Byte
  | Exchange.ask _ => []
  | Exchange.chunk _ data => data

/-- The exchanges the chunking claim lists: for each block `j` in increasing order one
`ask_write(0x1800+1024*j)`, then `write_chunk(0x1800+1024*j+256*k, image[1024*j+256*k :
1024*j+256*k+256])` for `k = 0..3`. -/
def expectedExchanges (firmware : List Byte) : List Exchange :=
  (List.range (firmware.length / 1024)).flatMap (fun j =>
    Exchange.ask (0x1800 + 1024 * j) ::
      (List.range 4).map (fun k =>
        Exchange.chunk (0x1800 + 1024 * j + 256 * k)
          ((firmware.drop (1024 * j + 256 * k)).take 256)))

/-- The succeeding side of a scripted port.  The behaviour of a port towards the coming
exchanges is given by a predicate `S script d`, read as: in state `d` the coming exchanges
succeed (`true`) or fail (`false`) as `script` says.  `Acks T S` says that an exchange marked
`true` returns nil and leads to the rest of the script. -/
def Acks (T : Serial σ) (S : List Bool → σ → Prop) : Prop :=
  ∀ (rest : List Bool) (s : Port σ) (req resp : List Byte), S (true :: rest) s.dev →
    (communicate T s req resp).1 = Res.ok () ∧ S rest (communicate T s req resp).2.dev

/-- The failing side of a scripted port, `Naks T reads S`: an exchange marked `false` returns
an error, and the `EmptyRx` that follows it finishes within `reads` reads and leads to the
rest of the script. -/
def Naks (T : Serial σ) (reads : Nat) (S : List Bool → σ → Prop) : Prop :=
  ∀ (rest : List Bool) (s : Port σ) (req resp : List Byte), S (false :: rest) s.dev →
    (∃ e, (communicate T s req resp).1 = Res.err e) ∧
      ∃ s2, EmptyRx T reads (communicate T s req resp).2 = some s2 ∧ S rest s2.dev

/-- An attempt at a block that fails at its exchange number `e` (0 is `ask_write`, `k + 1` is
the sub-chunk `k`): `e` exchanges succeed, the next one fails. -/
def failAt (e : Nat) : List Bool := List.replicate e true ++ [false]

/-- The script of an upload of `blocks` blocks in which the first three attempts at block `j`
fail, at the exchanges `e1`, `e2`, `e3`, and every other exchange succeeds. -/
def retryScript (blocks j e1 e2 e3 : Nat) : List Bool :=
  List.replicate (5 * j) true ++ (failAt e1 ++ (failAt e2 ++ (failAt e3 ++
    List.replicate (5 * (blocks - j)) true)))

/-- The simulated line at rest: nothing on its way to the host, no read schedule, and the
device about to follow `script`. -/
def Idle (script : List Bool) (d : Sim) : Prop := d = ⟨[], [], script⟩

/-- One `Read` as the line saw it: the length of the buffer passed in, and what came back. -/
abbrev ReadRecord := Nat × ReadResult

/-- A port with a recorder on its reads: it behaves as `T` and keeps, oldest first, the
buffer length and the result of every `Read`. -/
def tap (T : Serial σ) : Serial (σ × List ReadRecord) where
  write d raw := ((T.write d.1 raw).1, ((T.write d.1 raw).2, d.2))
  read d m := ((T.read d.1 m).1, ((T.read d.1 m).2, d.2 ++ [(m, (T.read d.1 m).1)]))
  read_le d m := T.read_le d.1 m

/-- The bytes the recorded reads stored, in the order of arrival. -/
def delivered (log : List ReadRecord) : List Byte := log.flatMap (fun e => e.2.data)

/-- A recorded read that stored at least one byte and reported no error. -/
def ReadRecord.good (e : ReadRecord) : Prop := e.2.err = none ∧ e.2.data ≠ []

/-- Every recorded read asked for exactly the bytes still missing of `missing`. -/
def requestsOk : Nat → List ReadRecord → Bool
  | _, [] => true
  | missing, e :: rest => decide (e.1 = missing) && requestsOk (missing - e.2.data.length) rest

/-- How a read loop on a recorded port ends, in terms of the record `log` of its reads. -/
def Ended (res : Res (List Byte)) (acc : List Byte) (missing : Nat) (log : List ReadRecord) :
    Prop :=
  (res = Res.ok (acc ++ delivered log) ∧ (delivered log).length = missing ∧
      ∀ e ∈ log, e.good) ∨
    (res = Res.err Err.readTimeout ∧ ∃ pre last, log = pre ++ [last] ∧
      (∀ e ∈ pre, e.good) ∧ last.2.err = none ∧ last.2.data = []) ∨
    (∃ code, res = Res.err (Err.transport code) ∧ ∃ pre last, log = pre ++ [last] ∧
      (∀ e ∈ pre, e.good) ∧ last.2.err = some code)

/-! ## Frame codec -/

theorem byte_val (v : Nat) : (byte v).val = v % 256 := rfl

theorem PutUint16_eq (v : Nat) : PutUint16 v = LE16 v := by
  simp only [PutUint16, LE16, byte, List.cons.injEq, Fin.mk.injEq, and_true]
  omega

theorem PutUint16_uint16 (n : Nat) : PutUint16 (uint16 n) = LE16 n := by
  simp only [PutUint16, uint16, LE16, byte]
  simp only [List.cons.injEq, Fin.mk.injEq, and_true]
  constructor <;> omega

theorem hostFrame_eq (P : List Byte) :
    hostFrame P = LE16 (P.length + 4) ++ P ++ make_checksum (LE16 (P.length + 4) ++ P) := by
  simp only [hostFrame, PutUint16_uint16]

theorem WriteFrame_eq (T : Serial σ) (s : Port σ) (P : List Byte) :
    WriteFrame T s P = WriteAll T s (hostFrame P) := rfl

theorem WriteAll_sent (T : Serial σ) (s : Port σ) (raw : List Byte) :
    (WriteAll T s raw).2.sent = s.sent ++ [raw] := by
  simp only [WriteAll]
  split
  · rfl
  · split <;> rfl

theorem make_checksum_length (B : List Byte) : (make_checksum B).length = 2 := rfl

/-- C1: for a payload `P` with `len(P)+4 < 2^16`, `WriteFrame` hands exactly
`LE16(len(P)+4) ++ P ++ make_checksum(LE16(len(P)+4) ++ P)` to the port, the length field of
that frame is its total length, and for `P = [0xC0]` the frame is `05 00 C0 3A FF`. -/
theorem WriteFrame_hands_frame (T : Serial σ) (s : Port σ) (P : List Byte)
    (h : P.length + 4 < 65536) :
    (WriteFrame T s P).2.sent =
        s.sent ++ [LE16 (P.length + 4) ++ P ++ make_checksum (LE16 (P.length + 4) ++ P)] ∧
      (∃ b0 b1 tail,
        LE16 (P.length + 4) ++ P ++ make_checksum (LE16 (P.length + 4) ++ P) = b0 :: b1 :: tail ∧
          Uint16 b0 b1 = (b0 :: b1 :: tail).length) ∧
      (WriteFrame T s [0xC0]).2.sent = s.sent ++ [[0x05, 0x00, 0xC0, 0x3A, 0xFF]] := by
  refine ⟨?_, ?_, ?_⟩
  · rw [WriteFrame_eq, WriteAll_sent, hostFrame_eq]
  · refine ⟨byte ((P.length + 4) % 256), byte ((P.length + 4) / 256),
      P ++ make_checksum (LE16 (P.length + 4) ++ P), rfl, ?_⟩
    simp only [Uint16, byte_val, List.length_cons, List.length_append, make_checksum_length]
    omega
  · rw [WriteFrame_eq, WriteAll_sent]; rfl

/-- Witness of C1 at the restart payload `C1 00` on the simulated line. -/
theorem WriteFrame_hands_frame_witness :
    ([0xC1, 0x00] : List Byte).length + 4 < 65536 ∧
      (WriteFrame sim ⟨⟨[], [], []⟩, []⟩ [0xC1, 0x00]).2.sent =
        [] ++ [LE16 6 ++ [0xC1, 0x00] ++ make_checksum (LE16 6 ++ [0xC1, 0x00])] :=
  ⟨by decide, (WriteFrame_hands_frame sim ⟨⟨[], [], []⟩, []⟩ [0xC1, 0x00] (by decide)).1⟩

theorem byteSum_cons (b : Byte) (B : List Byte) : byteSum (b :: B) = b.val + byteSum B := by
  simp [byteSum]

theorem byteSum_append (A B : List Byte) : byteSum (A ++ B) = byteSum A + byteSum B := by
  simp [byteSum]

theorem acc16_cons (b : Byte) (B : List Byte) (c : Nat) :
    acc16 (b :: B) c = acc16 B ((c + 65536 - b.val) % 65536) := rfl

theorem acc16_lt (B : List Byte) (c : Nat) (hc : c < 65536) : acc16 B c < 65536 := by
  induction B generalizing c with
  | nil => simpa [acc16] using hc
  | cons b B ih => rw [acc16_cons]; exact ih _ (Nat.mod_lt _ (by decide))

/-- The wrapping accumulator, read as an integer, is the start value minus the byte sum,
reduced modulo `2^16`. -/
theorem acc16_int (B : List Byte) (c : Nat) (hc : c < 65536) :
    (acc16 B c : Int) = ((c : Int) - (byteSum B : Int)) % 65536 := by
  induction B generalizing c with
  | nil =>
    simp only [acc16, List.foldl_nil, byteSum, List.map_nil, List.sum_nil, Nat.cast_zero,
      sub_zero]
    omega
  | cons b B ih =>
    rw [acc16_cons, ih _ (Nat.mod_lt _ (by decide)), byteSum_cons]
    have hb : b.val < 256 := b.isLt
    push_cast
    omega

theorem make_checksum_acc (B : List Byte) : make_checksum B = PutUint16 (acc16 B 0xFFFF) := rfl

/-- C2: for every byte sequence `B`, `make_checksum B` is the little-endian encoding of
`(0xFFFF - sum of the bytes of B) mod 2^16`. -/
theorem make_checksum_closed_form (B : List Byte) :
    make_checksum B = LE16 (((0xFFFF : Int) - (byteSum B : Int)) % 65536).toNat := by
  rw [make_checksum_acc, PutUint16_eq]
  congr 1
  have := acc16_int B 0xFFFF (by decide)
  omega

/-! ## Reading on the simulated line -/

theorem ReadAllLoop_zero (T : Serial σ) (turns : Nat) (acc : List Byte) (s : Port σ) :
    ReadAllLoop T turns 0 acc s = (Res.ok acc, s) := by
  cases turns <;> simp [ReadAllLoop]

theorem sim_read_nil (rx : List Byte) (script : List Bool) (m : Nat) :
    sim.read ⟨rx, [], script⟩ m = (⟨rx.take m, none⟩, ⟨rx.drop m, [], script⟩) := rfl

theorem sim_read_upTo (rx : List Byte) (k : Nat) (plan : List ReadEv) (script : List Bool)
    (m : Nat) :
    sim.read ⟨rx, ReadEv.upTo k :: plan, script⟩ m =
      (⟨rx.take (min k m), none⟩, ⟨rx.drop (min k m), plan, script⟩) := rfl

theorem sim_read_fault (rx : List Byte) (code : Nat) (plan : List ReadEv) (script : List Bool)
    (m : Nat) :
    sim.read ⟨rx, ReadEv.fault code :: plan, script⟩ m =
      (⟨[], some code⟩, ⟨rx, plan, script⟩) := rfl

theorem delivers_drop (plan : List ReadEv) (k : Nat) (h : plan.all ReadEv.delivers = true) :
    (plan.drop k).all ReadEv.delivers = true := by
  rw [List.all_eq_true] at h ⊢
  intro ev hev
  exact h ev (List.mem_of_mem_drop hev)

/-- On the simulated line, a read loop that finds its bytes waiting and only meets schedule
entries that deliver returns them, leaves the bytes behind them unread and uses up a front
part of the schedule. -/
theorem ReadAllLoop_sim (turns : Nat) :
    ∀ (xs acc rest : List Byte) (plan : List ReadEv) (script : List Bool)
      (sent : List (List Byte)),
      xs.length ≤ turns → plan.all ReadEv.delivers = true →
      ∃ k, ReadAllLoop sim turns xs.length acc ⟨⟨xs ++ rest, plan, script⟩, sent⟩ =
          (Res.ok (acc ++ xs), ⟨⟨rest, plan.drop k, script⟩, sent⟩) := by
  induction turns with
  | zero =>
    intro xs acc rest plan script sent hx _
    have : xs = [] := List.length_eq_zero.mp (Nat.le_zero.mp hx)
    subst this
    exact ⟨0, by simp [ReadAllLoop]⟩
  | succ turns ih =>
    intro xs acc rest plan script sent hx hp
    by_cases h0 : xs.length = 0
    · have : xs = [] := List.length_eq_zero.mp h0
      subst this
      exact ⟨0, by simp [ReadAllLoop]⟩
    · cases plan with
      | nil =>
        refine ⟨0, ?_⟩
        rw [ReadAllLoop]
        simp [h0, sim_read_nil, ReadAllLoop_zero]
      | cons ev plan =>
        cases ev with
        | fault code => simp [ReadEv.delivers] at hp
        | upTo k =>
          simp only [List.all_cons, ReadEv.delivers, Bool.and_eq_true, decide_eq_true_eq] at hp
          obtain ⟨hk, hp⟩ := hp
          obtain ⟨j, hrec⟩ := ih (xs.drop (min k xs.length))
            (acc ++ xs.take (min k xs.length)) rest plan script sent
            (by rw [List.length_drop]; omega) hp
          refine ⟨j + 1, ?_⟩
          have hlen : (xs.take (min k xs.length)).length = min k xs.length := by
            rw [List.length_take]; omega
          have htake : (xs ++ rest).take (min k xs.length) = xs.take (min k xs.length) := by
            rw [List.take_append_of_le_length (by omega)]
          have hdrop : (xs ++ rest).drop (min k xs.length)
              = xs.drop (min k xs.length) ++ rest := by
            rw [List.drop_append_of_le_length (by omega)]
          have hpos : min k xs.length ≠ 0 := by omega
          rw [ReadAllLoop]
          simp only [h0, if_false, sim_read_upTo, htake, hdrop, hlen, hpos]
          rw [List.length_drop] at hrec
          rw [hrec, List.append_assoc, List.take_append_drop, List.drop_succ_cons]

theorem ReadAll_sim (xs rest : List Byte) (plan : List ReadEv) (script : List Bool)
    (sent : List (List Byte)) (n : Int) (hn : n = xs.length)
    (hp : plan.all ReadEv.delivers = true) :
    ∃ k, ReadAll sim ⟨⟨xs ++ rest, plan, script⟩, sent⟩ n =
        (Res.ok xs, ⟨⟨rest, plan.drop k, script⟩, sent⟩) := by
  obtain ⟨k, h⟩ := ReadAllLoop_sim xs.length xs [] rest plan script sent le_rfl hp
  refine ⟨k, ?_⟩
  subst hn
  simp only [ReadAll, Int.toNat_ofNat]
  rw [if_neg (by omega), h]
  rfl

/-- What `ReadFrame` does on the simulated line with three header bytes, a body of the
announced size and a schedule that delivers. -/
theorem ReadFrame_sim_frame (P chk rest : List Byte) (plan : List ReadEv) (script : List Bool)
    (sent : List (List Byte)) (h0 h1 h2 : Byte) (hchk : chk.length = 2)
    (hsize : Uint16 h1 h2 = P.length + 5)
    (hp : plan.all ReadEv.delivers = true) :
    ∃ k, ReadFrame sim ⟨⟨[h0, h1, h2] ++ P ++ chk ++ rest, plan, script⟩, sent⟩ =
        (if h0 ≠ 0x55 then
          (Res.err Err.invalidResponse, ⟨⟨P ++ chk ++ rest, plan.drop k, script⟩, sent⟩)
         else if chk ≠ make_checksum ([h0, h1, h2] ++ P) then
          (Res.err Err.invalidChecksum, ⟨⟨rest, plan.drop k, script⟩, sent⟩)
         else (Res.ok P, ⟨⟨rest, plan.drop k, script⟩, sent⟩)) := by
  obtain ⟨k1, e1⟩ := ReadAll_sim [h0, h1, h2] (P ++ chk ++ rest) plan script sent 3 rfl hp
  by_cases hm : h0 ≠ 0x55
  · refine ⟨k1, ?_⟩
    simp only [List.append_assoc] at e1 ⊢
    simp only [ReadFrame, e1]
    simp [hm]
  · obtain ⟨k2, e2⟩ := ReadAll_sim (P ++ chk) rest (plan.drop k1) script sent
      ((Uint16 h1 h2 : Nat) - 3) (by rw [hsize]; simp [hchk]; omega) (delivers_drop plan k1 hp)
    refine ⟨k1 + k2, ?_⟩
    simp only [List.append_assoc] at e1 e2 ⊢
    simp only [ReadFrame, e1, hm, e2]
    have hl : (P ++ chk).length - 2 = P.length := by simp [hchk]
    simp [hchk, hl, Nat.add_comm k1 k2]

theorem deviceFrame_parts (P : List Byte) :
    deviceFrame P = [0x55, byte ((P.length + 5) % 256), byte ((P.length + 5) / 256)] ++ P ++
      make_checksum ([0x55, byte ((P.length + 5) % 256), byte ((P.length + 5) / 256)] ++ P) := by
  simp [deviceFrame, LE16]

theorem Uint16_size (n : Nat) (h : n < 65536) :
    Uint16 (byte (n % 256)) (byte (n / 256)) = n := by
  simp only [Uint16, byte]
  omega

/-- C3: when the line supplies the device frame of a payload `P` (total size `len(P)+5` below
`2^16`) followed by further bytes `rest`, in any split into non-empty reads, `ReadFrame`
returns exactly `P` with no error and leaves exactly `rest` unread. -/
theorem ReadFrame_roundtrip (P rest : List Byte) (plan : List ReadEv) (script : List Bool)
    (sent : List (List Byte)) (hlen : P.length + 5 < 65536)
    (hplan : plan.all ReadEv.delivers = true) :
    ∃ k, ReadFrame sim ⟨⟨deviceFrame P ++ rest, plan, script⟩, sent⟩ =
      (Res.ok P, ⟨⟨rest, plan.drop k, script⟩, sent⟩) := by
  obtain ⟨k, e⟩ := ReadFrame_sim_frame P
    (make_checksum ([0x55, byte ((P.length + 5) % 256), byte ((P.length + 5) / 256)] ++ P))
    rest plan script sent 0x55 _ _ (make_checksum_length _) (Uint16_size _ hlen) hplan
  refine ⟨k, ?_⟩
  rw [deviceFrame_parts, e]
  simp

/-- Witness of C3: payload `01 02 03`, two further bytes, reads of one and two bytes. -/
theorem ReadFrame_roundtrip_witness :
    ([1, 2, 3] : List Byte).length + 5 < 65536 ∧
      [ReadEv.upTo 1, ReadEv.upTo 2].all ReadEv.delivers = true ∧
      ∃ k, ReadFrame sim ⟨⟨deviceFrame [1, 2, 3] ++ [9, 9],
          [ReadEv.upTo 1, ReadEv.upTo 2], []⟩, []⟩ =
        (Res.ok [1, 2, 3], ⟨⟨[9, 9], [ReadEv.upTo 1, ReadEv.upTo 2].drop k, []⟩, []⟩) :=
  ⟨by decide, by decide,
    ReadFrame_roundtrip [1, 2, 3] [9, 9] [ReadEv.upTo 1, ReadEv.upTo 2] [] [] (by decide)
      (by decide)⟩

/-! ## The bounds of the loops

The loops of `ReadAll` and `update` are translated with a counter that bounds their turns.
The counters the translation starts them with are enough: a read loop that succeeds has
filled its buffer, and a larger counter does not change what the loops of `update` return. -/

/-- A successful read loop returns a full buffer: the turns given to it are enough. -/
theorem ReadAllLoop_length (T : Serial σ) (turns : Nat) :
    ∀ (missing : Nat) (acc buf : List Byte) (s s1 : Port σ), missing ≤ turns →
      ReadAllLoop T turns missing acc s = (Res.ok buf, s1) →
      buf.length = acc.length + missing := by
  induction turns with
  | zero =>
    intro missing acc buf s s1 hm h
    simp only [ReadAllLoop, Prod.mk.injEq, Res.ok.injEq] at h
    rw [← h.1]; omega
  | succ turns ih =>
    intro missing acc buf s s1 hm h
    rw [ReadAllLoop] at h
    split at h
    · next h0 =>
      simp only [Prod.mk.injEq, Res.ok.injEq] at h
      rw [← h.1, h0]; rfl
    · next h0 =>
      simp only [] at h
      have hle := T.read_le s.dev missing
      split at h
      · simp at h
      · split at h
        · simp at h
        · next hc =>
          have := ih _ _ _ _ _ (by omega) h
          rw [this, List.length_append]
          omega

theorem ReadAll_length (T : Serial σ) (s s1 : Port σ) (n : Int) (buf : List Byte)
    (h : ReadAll T s n = (Res.ok buf, s1)) : (buf.length : Int) = n := by
  unfold ReadAll at h
  split at h
  · simp at h
  · have := ReadAllLoop_length T _ _ _ _ _ _ le_rfl h
    simp only [List.length_nil, Nat.zero_add] at this
    omega

/-- A `goto ask` out of the inner loop carries a count of tries that is larger than before and
at most 3. -/
theorem chunkLoop_again (T : Serial σ) (reads : Nat) (fw : List Byte) (bw : Nat)
    (cs : List Nat) :
    ∀ (tries t : Nat) (s s1 : Port σ),
      chunkLoop T reads fw bw cs tries s = some (Flow.again t, s1) → tries < t ∧ t ≤ 3 := by
  induction cs with
  | nil => intro tries t s s1 h; simp [chunkLoop] at h
  | cons c cs ih =>
    intro tries t s s1 h
    rw [chunkLoop] at h
    split at h
    · simp at h
    · split at h
      · simp at h
      · exact ih _ _ _ _ h
      · split at h
        · next ht =>
          split at h
          · simp at h
          · simp only [Option.some.injEq, Prod.mk.injEq, Flow.again.injEq] at h
            omega
        · have := ih _ _ _ _ h
          omega

theorem askLoop_succ (T : Serial σ) (reads : Nat) (fw : List Byte) (bw gas tries : Nat)
    (s : Port σ) :
    askLoop T reads fw bw (gas + 1) tries s =
      match ask_write T s (0x1800 + bw) with
      | (Res.panic, s1) => some (Res.panic, s1)
      | (Res.err _, s1) =>
        if tries + 1 ≤ 3 then
          match EmptyRx T reads s1 with
          | none => none
          | some s2 => askLoop T reads fw bw gas (tries + 1) s2
        else
          match chunkLoop T reads fw bw chunkOffsets (tries + 1) s1 with
          | none => none
          | some (Flow.crash, s2) => some (Res.panic, s2)
          | some (Flow.again t, s2) => askLoop T reads fw bw gas t s2
          | some (Flow.next _, s2) => some (Res.ok (), s2)
      | (Res.ok _, s1) =>
        match chunkLoop T reads fw bw chunkOffsets tries s1 with
        | none => none
        | some (Flow.crash, s2) => some (Res.panic, s2)
        | some (Flow.again t, s2) => askLoop T reads fw bw gas t s2
        | some (Flow.next _, s2) => some (Res.ok (), s2) := rfl

/-- Four entries at the label `ask` are enough: from `gas + tries ≥ 4` on, more gas changes
nothing. -/
theorem askLoop_gas (T : Serial σ) (reads : Nat) (fw : List Byte) (bw : Nat) (gas : Nat) :
    ∀ (tries : Nat) (s : Port σ), 4 ≤ gas + 1 + tries →
      askLoop T reads fw bw (gas + 2) tries s = askLoop T reads fw bw (gas + 1) tries s := by
  induction gas with
  | zero =>
    intro tries s hg
    rw [askLoop_succ, askLoop_succ T reads fw bw 0]
    rcases hA : ask_write T s (0x1800 + bw) with ⟨r, s1⟩
    cases r with
    | panic => rfl
    | err e =>
      simp only [if_neg (show ¬ tries + 1 ≤ 3 by omega)]
      rcases hC : chunkLoop T reads fw bw chunkOffsets (tries + 1) s1 with _ | ⟨fl, s2⟩
      · rfl
      · cases fl with
        | next t => rfl
        | crash => rfl
        | again t => have := chunkLoop_again T reads fw bw _ _ _ _ _ hC; omega
    | ok u =>
      simp only []
      rcases hC : chunkLoop T reads fw bw chunkOffsets tries s1 with _ | ⟨fl, s2⟩
      · rfl
      · cases fl with
        | next t => rfl
        | crash => rfl
        | again t => have := chunkLoop_again T reads fw bw _ _ _ _ _ hC; omega
  | succ gas ih =>
    intro tries s hg
    rw [askLoop_succ, askLoop_succ T reads fw bw (gas + 1)]
    rcases hA : ask_write T s (0x1800 + bw) with ⟨r, s1⟩
    cases r with
    | panic => rfl
    | err e =>
      simp only []
      by_cases ht : tries + 1 ≤ 3
      · simp only [if_pos ht]
        cases hE : EmptyRx T reads s1 with
        | none => rfl
        | some s2 => exact ih _ _ (by omega)
      · simp only [if_neg ht]
        rcases hC : chunkLoop T reads fw bw chunkOffsets (tries + 1) s1 with _ | ⟨fl, s2⟩
        · rfl
        · cases fl with
          | next t => rfl
          | crash => rfl
          | again t =>
            have := chunkLoop_again T reads fw bw _ _ _ _ _ hC
            exact ih _ _ (by omega)
    | ok u =>
      simp only []
      rcases hC : chunkLoop T reads fw bw chunkOffsets tries s1 with _ | ⟨fl, s2⟩
      · rfl
      · cases fl with
        | next t => rfl
        | crash => rfl
        | again t =>
          have := chunkLoop_again T reads fw bw _ _ _ _ _ hC
          exact ih _ _ (by omega)

theorem blockLoop_succ (T : Serial σ) (reads : Nat) (fw : List Byte) (gas bw : Nat)
    (s : Port σ) :
    blockLoop T reads fw (gas + 1) bw s =
      if bw < fw.length then
        match askLoop T reads fw bw 4 0 s with
        | none => none
        | some (Res.ok _, s1) => blockLoop T reads fw gas (bw + 1024) s1
        | some (Res.err e, s1) => some (Res.err e, s1)
        | some (Res.panic, s1) => some (Res.panic, s1)
      else some (Res.ok (), s) := rfl

/-- The turns given to the outer loop are enough: once they cover the rest of the image, one
more changes nothing. -/
theorem blockLoop_gas (T : Serial σ) (reads : Nat) (fw : List Byte) (gas : Nat) :
    ∀ (bw : Nat) (s : Port σ), fw.length ≤ bw + 1024 * gas →
      blockLoop T reads fw (gas + 1) bw s = blockLoop T reads fw gas bw s := by
  induction gas with
  | zero =>
    intro bw s h
    rw [blockLoop, blockLoop, if_neg (by omega), if_neg (by omega)]
  | succ gas ih =>
    intro bw s h
    rw [blockLoop_succ, blockLoop_succ T reads fw gas]
    by_cases hb : bw < fw.length
    · simp only [if_pos hb]
      rcases hA : askLoop T reads fw bw 4 0 s with _ | ⟨r, s1⟩
      · rfl
      · cases r with
        | ok u => exact ih _ _ (by omega)
        | err e => rfl
        | panic => rfl
    · simp only [if_neg hb]

/-! ## The exchange -/

/-- C4 (what the code does): the device answers `ask_write(0x1800)` with a well-formed,
correctly checksummed acknowledgement for the other address `0x1C00`; `ReadFrame` returns
that payload, it differs from the expected acknowledgement, and `ask_write` still returns
nil.  The expected response never decides the result of `communicate`. -/
theorem communicate_drops_mismatch :
    (∀ (τ : Type) (T : Serial τ) (s : Port τ) (request r1 r2 : List Byte),
        communicate T s request r1 = communicate T s request r2) ∧
      get_permission 0x1C00 ≠ get_permission 0x1800 ∧
      ReadFrame sim ⟨⟨deviceFrame (get_permission 0x1C00), [], []⟩,
          [hostFrame (ask_permission 0x1800)]⟩ =
        (Res.ok (get_permission 0x1C00), ⟨⟨[], [], []⟩, [hostFrame (ask_permission 0x1800)]⟩) ∧
      ask_write sim ⟨⟨deviceFrame (get_permission 0x1C00), [], []⟩, []⟩ 0x1800 =
        (Res.ok (), ⟨⟨[], [], []⟩, [hostFrame (ask_permission 0x1800)]⟩) :=
  ⟨fun _ _ _ _ _ _ => rfl, by decide, by decide, by decide⟩

/-! ## The loader -/

theorem copy_make (n : Nat) (src : List Byte) (h : src.length ≤ n) :
    copy (make n) src = src ++ List.replicate (n - src.length) 0 := by
  simp only [copy, make, List.length_replicate, List.drop_replicate]
  rw [Nat.min_eq_right h, List.take_of_length_le le_rfl]

theorem slice_some (xs : List Byte) (lo hi : Nat) (h1 : lo ≤ hi) (h2 : hi ≤ xs.length) :
    slice xs lo hi = some ((xs.drop lo).take (hi - lo)) := by
  simp only [slice]
  rw [if_pos ⟨h1, h2⟩]

theorem make_length (n : Nat) : (make n).length = n := by simp [make]

theorem stripHeader_long (raw : List Byte) (h : raw.length > 0xE7FF) :
    stripHeader raw =
      Res.ok ((raw.drop 1800).take (raw.length - 0x1800 - 1800) ++ List.replicate 1800 0) := by
  have hl : ((raw.drop 1800).take (raw.length - 0x1800 - 1800)).length
      = raw.length - 0x1800 - 1800 := by
    simp only [List.length_take, List.length_drop]; omega
  have hc := copy_make (raw.length - 0x1800)
    ((raw.drop 1800).take (raw.length - 0x1800 - 1800)) (by rw [hl]; omega)
  have hn : raw.length - 0x1800 - (raw.length - 0x1800 - 1800) = 1800 := by omega
  rw [hl, hn] at hc
  unfold stripHeader
  rw [if_pos h]
  simp only [make_length]
  rw [slice_some raw 1800 (raw.length - 0x1800) (by omega) (by omega)]
  simp only []
  rw [hc]

theorem stripHeader_short (raw : List Byte) (h : ¬ raw.length > 0xE7FF) :
    stripHeader raw = Res.ok raw := by
  have hc : copy (make raw.length) raw = raw := by
    rw [copy_make _ _ le_rfl]; simp
  unfold stripHeader
  rw [if_neg h]
  simp only [make_length]
  rw [slice_some raw 0 raw.length (by omega) le_rfl]
  simp only [Nat.sub_zero, List.drop_zero, List.take_length, hc]

/-- With a file longer than `0xE7FF` bytes the loader copies from index 1800 (decimal) and
stops `0x1800` bytes before the end of the file, so the last 1800 bytes of the image stay
zero. -/
theorem loadImage_long (raw : List Byte) (h : raw.length > 0xE7FF) :
    loadImage raw =
      if raw.length - 0x1800 < 0x9000 ∨ raw.length - 0x1800 > 0xe7ff then
        Res.err Err.firmwareSize
      else
        Res.ok ((raw.drop 1800).take (raw.length - 0x1800 - 1800) ++ List.replicate 1800 0) := by
  have hl : ((raw.drop 1800).take (raw.length - 0x1800 - 1800)
      ++ List.replicate 1800 (0 : Byte)).length = raw.length - 0x1800 := by
    simp only [List.length_append, List.length_take, List.length_drop, List.length_replicate]
    omega
  unfold loadImage
  rw [stripHeader_long raw h]
  simp only [hl]

theorem ramp_length (n : Nat) : (ramp n).length = n := by simp [ramp]

theorem ramp_get (n i : Nat) (h : i < n) : (ramp n)[i]? = some (byte i) := by
  simp [ramp, List.getElem?_range h]

theorem front_get (xs ys : List Byte) (a k i : Nat) (hi : i < k) (h : a + i < xs.length) :
    ((xs.drop a).take k ++ ys)[i]? = xs[a + i]? := by
  have hl : i < ((xs.drop a).take k).length := by
    simp only [List.length_take, List.length_drop]; omega
  rw [List.getElem?_append_left hl, List.getElem?_take_of_lt hi, List.getElem?_drop]

theorem back_get (xs : List Byte) (z : Byte) (m i : Nat) (h1 : xs.length ≤ i)
    (h2 : i < xs.length + m) :
    (xs ++ List.replicate m z)[i]? = some z := by
  rw [List.getElem?_append_right h1, List.getElem?_replicate]
  rw [if_pos (by omega)]

/-- C9 (what the code does): for the raw file of `0xF000` bytes with `raw[i] = i mod 256` the
image is passed on and has length `len(raw) - 0x1800`, but its first byte is `raw[1800] = 8`,
not `raw[0x1800] = 0`, and its last byte is `0`, not the last byte `255` of the file. -/
theorem loadImage_copies_from_1800 :
    ∃ image, loadImage (ramp 0xF000) = Res.ok image ∧ image.length = 0xF000 - 0x1800 ∧
      image[0]? = some 8 ∧ (ramp 0xF000)[0x1800]? = some 0 ∧
      image[0xD800 - 1]? = some 0 ∧ (ramp 0xF000)[0xF000 - 1]? = some 255 := by
  have hlen : (ramp 0xF000).length = 0xF000 := ramp_length _
  have himg : loadImage (ramp 0xF000) =
      Res.ok (((ramp 0xF000).drop 1800).take 53496 ++ List.replicate 1800 0) := by
    rw [loadImage_long _ (by rw [hlen]; decide), if_neg (by rw [hlen]; decide), hlen]
  have hl2 : (((ramp 0xF000).drop 1800).take 53496).length = 53496 := by
    rw [List.length_take, List.length_drop, hlen]; decide
  refine ⟨_, himg, ?_, ?_, ?_, ?_, ?_⟩
  · rw [List.length_append, hl2, List.length_replicate]
  · rw [front_get _ _ 1800 53496 0 (by decide) (by rw [hlen]; decide),
      ramp_get _ _ (by decide)]
    rfl
  · rw [ramp_get _ _ (by decide)]; rfl
  · exact back_get _ 0 1800 _ (by rw [hl2]; decide) (by rw [hl2]; decide)
  · rw [ramp_get _ _ (by decide)]; rfl

/-! ## Corrupted device frames -/

/-- C10 as stated fails: a replaced marker byte gives the invalid-response error, not the
checksum error, and a replaced size byte can go unnoticed: the frame of payload `A5 FF` with
its size byte changed from 7 to 5 is read as a valid frame with an empty payload. -/
theorem ReadFrame_corruption_not_always_checksum :
    (ReadFrame sim ⟨⟨deviceFrame [], [], []⟩, []⟩).1 = Res.ok [] ∧
      (deviceFrame [])[0]? ≠ some 0x54 ∧
      (ReadFrame sim ⟨⟨(deviceFrame []).set 0 0x54, [], []⟩, []⟩).1 =
        Res.err Err.invalidResponse ∧
      (ReadFrame sim ⟨⟨deviceFrame [0xA5, 0xFF], [], []⟩, []⟩).1 = Res.ok [0xA5, 0xFF] ∧
      (deviceFrame [0xA5, 0xFF])[1]? ≠ some 0x05 ∧
      (ReadFrame sim ⟨⟨(deviceFrame [0xA5, 0xFF]).set 1 0x05, [], []⟩, []⟩).1 = Res.ok [] := by
  decide

theorem byteSum_set (P : List Byte) (j : Nat) (b x : Byte) (h : P[j]? = some x) :
    byteSum (P.set j b) + x.val = byteSum P + b.val := by
  induction P generalizing j with
  | nil => simp at h
  | cons p P ih =>
    cases j with
    | zero =>
      simp only [List.getElem?_cons_zero, Option.some.injEq] at h
      subst h
      simp only [List.set_cons_zero, byteSum_cons]
      omega
    | succ j =>
      simp only [List.getElem?_cons_succ] at h
      have := ih j h
      simp only [List.set_cons_succ, byteSum_cons]
      omega

theorem PutUint16_inj (v w : Nat) (hv : v < 65536) (hw : w < 65536)
    (h : PutUint16 v = PutUint16 w) : v = w := by
  simp only [PutUint16, byte, List.cons.injEq, Fin.mk.injEq, and_true] at h
  omega

theorem make_checksum_ne (A B : List Byte) (h1 : byteSum A ≠ byteSum B)
    (h2 : byteSum A < byteSum B + 65536) (h3 : byteSum B < byteSum A + 65536) :
    make_checksum A ≠ make_checksum B := by
  intro h
  rw [make_checksum_acc, make_checksum_acc] at h
  have h := PutUint16_inj _ _ (acc16_lt A _ (by decide)) (acc16_lt B _ (by decide)) h
  have hA := acc16_int A 0xFFFF (by decide)
  have hB := acc16_int B 0xFFFF (by decide)
  rw [h] at hA
  omega

/-- C10, amended: in a valid device frame, replacing one byte of the payload or of the
checksum trailer (index 3 or more) by a different value makes `ReadFrame` fail with the
checksum error, and replacing the marker byte (index 0) makes it fail with the
invalid-response error. -/
theorem ReadFrame_detects_corruption (P rest : List Byte) (plan : List ReadEv) (script : List Bool)
    (sent : List (List Byte)) (i : Nat) (b : Byte) (hlen : P.length + 5 < 65536)
    (hplan : plan.all ReadEv.delivers = true)
    (hi : i < (deviceFrame P).length) (hb : (deviceFrame P)[i]? ≠ some b) :
    (3 ≤ i → (ReadFrame sim ⟨⟨(deviceFrame P).set i b ++ rest, plan, script⟩, sent⟩).1 =
        Res.err Err.invalidChecksum) ∧
    (i = 0 → (ReadFrame sim ⟨⟨(deviceFrame P).set i b ++ rest, plan, script⟩, sent⟩).1 =
        Res.err Err.invalidResponse) := by
  rw [deviceFrame_parts] at hi hb ⊢
  generalize hs0 : byte ((P.length + 5) % 256) = s0 at hi hb ⊢
  generalize hs1 : byte ((P.length + 5) / 256) = s1 at hi hb ⊢
  have hsize : Uint16 s0 s1 = P.length + 5 := by
    rw [← hs0, ← hs1]; exact Uint16_size _ hlen
  generalize hchk : make_checksum ([0x55, s0, s1] ++ P) = chk at hi hb ⊢
  have hcl : chk.length = 2 := by rw [← hchk]; rfl
  constructor
  · intro h3
    by_cases hp : i < 3 + P.length
    · -- a payload byte
      obtain ⟨j, rfl⟩ : ∃ j, i = 3 + j := ⟨i - 3, by omega⟩
      have hj : j < P.length := by omega
      have hset : ([0x55, s0, s1] ++ P ++ chk).set (3 + j) b
          = [0x55, s0, s1] ++ P.set j b ++ chk := by
        rw [List.set_append_left _ _ (by simp; omega), List.set_append_right _ _ (by simp)]
        simp
      have hget : ([0x55, s0, s1] ++ P ++ chk)[3 + j]? = P[j]? := by
        rw [List.getElem?_append_left (by simp; omega), List.getElem?_append_right (by simp)]
        simp
      rw [hget] at hb
      obtain ⟨x, hx⟩ : ∃ x, P[j]? = some x := ⟨P[j], List.getElem?_eq_getElem hj⟩
      have hxb : x ≠ b := by
        intro h; rw [hx, h] at hb; exact hb rfl
      have hsum := byteSum_set P j b x hx
      have hxv : x.val ≠ b.val := fun h => hxb (Fin.ext h)
      have hne : chk ≠ make_checksum ([0x55, s0, s1] ++ P.set j b) := by
        rw [← hchk]
        apply make_checksum_ne
        · rw [byteSum_append, byteSum_append]; omega
        · rw [byteSum_append, byteSum_append]; have := x.isLt; have := b.isLt; omega
        · rw [byteSum_append, byteSum_append]; have := x.isLt; have := b.isLt; omega
      obtain ⟨k, e⟩ := ReadFrame_sim_frame (P.set j b) chk rest plan script sent 0x55 s0 s1 hcl
        (by rw [List.length_set]; exact hsize) hplan
      rw [hset, e, if_neg (fun h => h rfl), if_pos hne]
    · -- a trailer byte
      have hL : ([0x55, s0, s1] ++ P).length = 3 + P.length := by
        simp only [List.length_append, List.length_cons, List.length_nil]
      have hset : ([0x55, s0, s1] ++ P ++ chk).set i b
          = [0x55, s0, s1] ++ P ++ chk.set (i - (3 + P.length)) b := by
        rw [List.set_append_right _ _ (by rw [hL]; omega), hL]
      have hget : ([0x55, s0, s1] ++ P ++ chk)[i]? = chk[i - (3 + P.length)]? := by
        rw [List.getElem?_append_right (by rw [hL]; omega), hL]
      rw [hget] at hb
      have hilt : i - (3 + P.length) < chk.length := by
        simp only [List.length_append, List.length_cons, List.length_nil] at hi
        omega
      have hne : chk.set (i - (3 + P.length)) b ≠ make_checksum ([0x55, s0, s1] ++ P) := by
        rw [hchk]
        intro h
        apply hb
        have := congrArg (fun l => l[i - (3 + P.length)]?) h
        simp only [List.getElem?_set_self hilt] at this
        exact this.symm
      obtain ⟨k, e⟩ := ReadFrame_sim_frame P (chk.set (i - (3 + P.length)) b) rest plan script
        sent 0x55 s0 s1 (by rw [List.length_set]; exact hcl) hsize hplan
      rw [hset, e, if_neg (fun h => h rfl), if_pos hne]
  · intro h0
    subst h0
    have hset : ([0x55, s0, s1] ++ P ++ chk).set 0 b = [b, s0, s1] ++ P ++ chk := by simp
    have hb55 : b ≠ 0x55 := by
      intro h; apply hb; simp [h]
    obtain ⟨k, e⟩ := ReadFrame_sim_frame P chk rest plan script sent b s0 s1 hcl hsize hplan
    rw [hset, e, if_pos hb55]

/-- Witness of the amended C10: payload `01 02 03`, payload byte at index 4 replaced by 0. -/
theorem ReadFrame_detects_corruption_witness :
    ([1, 2, 3] : List Byte).length + 5 < 65536 ∧
      ([] : List ReadEv).all ReadEv.delivers = true ∧
      4 < (deviceFrame [1, 2, 3]).length ∧ (deviceFrame [1, 2, 3])[4]? ≠ some 0 ∧
      (ReadFrame sim ⟨⟨(deviceFrame [1, 2, 3]).set 4 0 ++ [], [], []⟩, []⟩).1 =
        Res.err Err.invalidChecksum :=
  ⟨by decide, by decide, by decide, by decide,
    (ReadFrame_detects_corruption [1, 2, 3] [] [] [] [] 4 0 (by decide) (by decide) (by decide)
      (by decide)).1 (by decide)⟩

/-! ## The upload -/

theorem ReadAllLoop_sent (T : Serial σ) (turns : Nat) :
    ∀ (missing : Nat) (acc : List Byte) (s : Port σ),
      (ReadAllLoop T turns missing acc s).2.sent = s.sent := by
  induction turns with
  | zero => intro missing acc s; rfl
  | succ turns ih =>
    intro missing acc s
    rw [ReadAllLoop]
    split
    · rfl
    · simp only []
      split
      · rfl
      · split
        · rfl
        · rw [ih]

theorem ReadAll_sent (T : Serial σ) (s : Port σ) (n : Int) :
    (ReadAll T s n).2.sent = s.sent := by
  unfold ReadAll
  split
  · rfl
  · exact ReadAllLoop_sent T _ _ _ _

theorem ReadFrame_sent (T : Serial σ) (s : Port σ) : (ReadFrame T s).2.sent = s.sent := by
  have h1 := ReadAll_sent T s 3
  unfold ReadFrame
  split
  · next s1 he => rw [he] at h1; exact h1
  · next e s1 he => rw [he] at h1; exact h1
  · next head s1 he =>
    rw [he] at h1
    split
    · next h0 hh1 hh2 =>
      split
      · exact h1
      · simp only []
        have h2 := ReadAll_sent T s1 ((Uint16 hh1 hh2 : Nat) - 3)
        split
        · next s2 he2 => rw [he2] at h2; exact h2.trans h1
        · next e s2 he2 => rw [he2] at h2; exact h2.trans h1
        · next body s2 he2 =>
          rw [he2] at h2
          split
          · exact h2.trans h1
          · split <;> exact h2.trans h1
    · exact h1

theorem communicate_sent (T : Serial σ) (s : Port σ) (request response : List Byte) :
    (communicate T s request response).2.sent = s.sent ++ [hostFrame request] := by
  have h1 := WriteAll_sent T s (hostFrame request)
  rw [← WriteFrame_eq] at h1
  unfold communicate
  split
  · next s1 he => rw [he] at h1; exact h1
  · next e s1 he => rw [he] at h1; exact h1
  · next u s1 he =>
    rw [he] at h1
    have h2 := ReadFrame_sent T s1
    split
    · next s2 he2 => rw [he2] at h2; exact h2.trans h1
    · next e s2 he2 => rw [he2] at h2; exact h2.trans h1
    · next msg s2 he2 => rw [he2] at h2; exact h2.trans h1

theorem EmptyRx_sent (T : Serial σ) (reads : Nat) :
    ∀ (s s2 : Port σ), EmptyRx T reads s = some s2 → s2.sent = s.sent := by
  induction reads with
  | zero => intro s s2 h; simp [EmptyRx] at h
  | succ reads ih =>
    intro s s2 h
    rw [EmptyRx] at h
    split at h
    · have h3 := ih _ _ h
      exact h3
    · simp only [Option.some.injEq] at h
      rw [← h]

section scripted
variable (T : Serial σ) (reads : Nat) (S : List Bool → σ → Prop) (fw : List Byte)

theorem chunkLoop_acked (hack : Acks T S) (bw : Nat) (cs : List Nat) :
    ∀ (tries : Nat) (s : Port σ) (rest : List Bool),
      (∀ c ∈ cs, bw + c + 256 ≤ fw.length) →
      S (List.replicate cs.length true ++ rest) s.dev →
      ∃ s1, chunkLoop T reads fw bw cs tries s = some (Flow.next tries, s1) ∧ S rest s1.dev ∧
        s1.sent = s.sent ++ cs.map (chunkFrame fw bw) := by
  induction cs with
  | nil =>
    intro tries s rest _ hS
    exact ⟨s, rfl, by simpa using hS, by simp⟩
  | cons c cs ih =>
    intro tries s rest hin hS
    have hc : bw + c + 256 ≤ fw.length := hin c (List.mem_cons_self _ _)
    have hsl := slice_some fw (bw + c) (bw + c + 256) (by omega) hc
    rw [Nat.add_sub_cancel_left] at hsl
    obtain ⟨hok, hS1⟩ := hack (List.replicate cs.length true ++ rest) s
      (write_instruction (0x1800 + (bw + c)) ((fw.drop (bw + c)).take 256)) write_confirmation
      (by simpa [List.replicate_succ] using hS)
    have hsent := communicate_sent T s
      (write_instruction (0x1800 + (bw + c)) ((fw.drop (bw + c)).take 256)) write_confirmation
    obtain ⟨s1, e1, hS2, hs2⟩ := ih tries _ rest
      (fun c' hc' => hin c' (List.mem_cons_of_mem _ hc')) hS1
    refine ⟨s1, ?_, hS2, ?_⟩
    · rw [chunkLoop]
      simp only [hsl, write_chunk]
      generalize communicate T s
        (write_instruction (0x1800 + (bw + c)) ((fw.drop (bw + c)).take 256))
        write_confirmation = r at hok e1
      obtain ⟨r1, r2⟩ := r
      simp only at hok
      subst hok
      exact e1
    · rw [hs2, hsent]
      simp [chunkFrame]

theorem chunkLoop_failed (hack : Acks T S) (hnak : Naks T reads S) (bw : Nat) (cs : List Nat) :
    ∀ (e tries : Nat) (s : Port σ) (rest : List Bool),
      e < cs.length → tries + 1 ≤ 3 →
      (∀ c ∈ cs, bw + c + 256 ≤ fw.length) →
      S (List.replicate e true ++ false :: rest) s.dev →
      ∃ s1, chunkLoop T reads fw bw cs tries s = some (Flow.again (tries + 1), s1) ∧
        S rest s1.dev ∧ s1.sent = s.sent ++ (cs.take (e + 1)).map (chunkFrame fw bw) := by
  induction cs with
  | nil => intro e tries s rest he; simp at he
  | cons c cs ih =>
    intro e tries s rest he ht hin hS
    have hc : bw + c + 256 ≤ fw.length := hin c (List.mem_cons_self _ _)
    have hsl := slice_some fw (bw + c) (bw + c + 256) (by omega) hc
    rw [Nat.add_sub_cancel_left] at hsl
    have hsent := communicate_sent T s
      (write_instruction (0x1800 + (bw + c)) ((fw.drop (bw + c)).take 256)) write_confirmation
    cases e with
    | zero =>
      obtain ⟨⟨err, herr⟩, s2, hdr, hS2⟩ := hnak rest s
        (write_instruction (0x1800 + (bw + c)) ((fw.drop (bw + c)).take 256))
        write_confirmation (by simpa using hS)
      have hs2 := EmptyRx_sent T reads _ _ hdr
      refine ⟨s2, ?_, hS2, ?_⟩
      · rw [chunkLoop]
        simp only [hsl, write_chunk]
        generalize communicate T s
          (write_instruction (0x1800 + (bw + c)) ((fw.drop (bw + c)).take 256))
          write_confirmation = r at herr hdr
        obtain ⟨r1, r2⟩ := r
        simp only at herr hdr
        subst herr
        simp only [ht, if_true, hdr]
      · rw [hs2, hsent]
        simp [chunkFrame]
    | succ e =>
      obtain ⟨hok, hS1⟩ := hack (List.replicate e true ++ false :: rest) s
        (write_instruction (0x1800 + (bw + c)) ((fw.drop (bw + c)).take 256))
        write_confirmation (by simpa [List.replicate_succ] using hS)
      obtain ⟨s1, e1, hS2, hs2⟩ := ih e tries _ rest (by simpa using he) ht
        (fun c' hc' => hin c' (List.mem_cons_of_mem _ hc')) hS1
      refine ⟨s1, ?_, hS2, ?_⟩
      · rw [chunkLoop]
        simp only [hsl, write_chunk]
        generalize communicate T s
          (write_instruction (0x1800 + (bw + c)) ((fw.drop (bw + c)).take 256))
          write_confirmation = r at hok e1
        obtain ⟨r1, r2⟩ := r
        simp only at hok
        subst hok
        exact e1
      · rw [hs2, hsent]
        simp [chunkFrame]

theorem chunkOffsets_in (bw : Nat) (h : bw + 1024 ≤ fw.length) :
    ∀ c ∈ chunkOffsets, bw + c + 256 ≤ fw.length := by
  intro c hc
  simp only [chunkOffsets, List.mem_cons, List.mem_singleton, List.not_mem_nil, or_false] at hc
  omega

theorem askLoop_acked (hack : Acks T S) (bw gas tries : Nat) (s : Port σ) (rest : List Bool)
    (hfit : bw + 1024 ≤ fw.length) (hS : S (List.replicate 5 true ++ rest) s.dev) :
    ∃ s1, askLoop T reads fw bw (gas + 1) tries s = some (Res.ok (), s1) ∧ S rest s1.dev ∧
      s1.sent = s.sent ++ blockFrames fw bw := by
  obtain ⟨hok, hS1⟩ := hack (List.replicate 4 true ++ rest) s
    (ask_permission (0x1800 + bw)) (get_permission (0x1800 + bw)) hS
  have hsent := communicate_sent T s (ask_permission (0x1800 + bw)) (get_permission (0x1800 + bw))
  obtain ⟨s1, e1, hS2, hs2⟩ := chunkLoop_acked T reads S fw hack bw chunkOffsets tries _ rest
    (chunkOffsets_in fw bw hfit) hS1
  refine ⟨s1, ?_, hS2, ?_⟩
  · rw [askLoop]
    simp only [ask_write]
    generalize communicate T s (ask_permission (0x1800 + bw)) (get_permission (0x1800 + bw))
      = r at hok e1
    obtain ⟨r1, r2⟩ := r
    simp only at hok
    subst hok
    simp only [e1]
  · rw [hs2, hsent]
    simp [blockFrames, askFrame]

theorem askLoop_failed (hack : Acks T S) (hnak : Naks T reads S) (bw gas e tries : Nat)
    (s : Port σ) (rest : List Bool) (he : e ≤ 4) (ht : tries + 1 ≤ 3)
    (hfit : bw + 1024 ≤ fw.length)
    (hS : S (List.replicate e true ++ false :: rest) s.dev) :
    ∃ s1, askLoop T reads fw bw (gas + 1) tries s = askLoop T reads fw bw gas (tries + 1) s1 ∧
      S rest s1.dev ∧ s1.sent = s.sent ++ (blockFrames fw bw).take (e + 1) := by
  have hsent := communicate_sent T s (ask_permission (0x1800 + bw)) (get_permission (0x1800 + bw))
  cases e with
  | zero =>
    obtain ⟨⟨err, herr⟩, s2, hdr, hS2⟩ := hnak rest s
      (ask_permission (0x1800 + bw)) (get_permission (0x1800 + bw)) (by simpa using hS)
    have hs2 := EmptyRx_sent T reads _ _ hdr
    refine ⟨s2, ?_, hS2, ?_⟩
    · rw [askLoop]
      simp only [ask_write]
      generalize communicate T s (ask_permission (0x1800 + bw)) (get_permission (0x1800 + bw))
        = r at herr hdr
      obtain ⟨r1, r2⟩ := r
      simp only at herr hdr
      subst herr
      simp only [ht, if_true, hdr]
    · rw [hs2, hsent]
      simp [blockFrames, askFrame]
  | succ e =>
    obtain ⟨hok, hS1⟩ := hack (List.replicate e true ++ false :: rest) s
      (ask_permission (0x1800 + bw)) (get_permission (0x1800 + bw))
      (by simpa [List.replicate_succ] using hS)
    obtain ⟨s1, e1, hS2, hs2⟩ := chunkLoop_failed T reads S fw hack hnak bw chunkOffsets e tries
      _ rest (by simp [chunkOffsets]; omega) ht (chunkOffsets_in fw bw hfit) hS1
    refine ⟨s1, ?_, hS2, ?_⟩
    · rw [askLoop]
      simp only [ask_write]
      generalize communicate T s (ask_permission (0x1800 + bw)) (get_permission (0x1800 + bw))
        = r at hok e1
      obtain ⟨r1, r2⟩ := r
      simp only at hok
      subst hok
      simp only [e1]
    · rw [hs2, hsent]
      simp [blockFrames, askFrame]

theorem blockLoop_acked (hack : Acks T S) (j : Nat) :
    ∀ (gas bw : Nat) (s : Port σ) (rest : List Bool),
      bw + 1024 * j ≤ fw.length → S (List.replicate (5 * j) true ++ rest) s.dev →
      ∃ s1, blockLoop T reads fw (gas + j) bw s = blockLoop T reads fw gas (bw + 1024 * j) s1 ∧
        S rest s1.dev ∧ s1.sent = s.sent ++ framesFrom fw bw j := by
  induction j with
  | zero =>
    intro gas bw s rest _ hS
    exact ⟨s, rfl, by simpa using hS, by simp [framesFrom]⟩
  | succ j ih =>
    intro gas bw s rest hfit hS
    have hsplit : List.replicate (5 * (j + 1)) true ++ rest
        = List.replicate 5 true ++ (List.replicate (5 * j) true ++ rest) := by
      rw [← List.append_assoc, ← List.replicate_add]
      congr 2
      omega
    rw [hsplit] at hS
    obtain ⟨s1, e1, hS1, hs1⟩ := askLoop_acked T reads S fw hack bw 3 0 s _ (by omega) hS
    obtain ⟨s2, e2, hS2, hs2⟩ := ih gas (bw + 1024) s1 rest (by omega) hS1
    refine ⟨s2, ?_, hS2, ?_⟩
    · have hg : gas + (j + 1) = (gas + j) + 1 := by omega
      rw [hg, blockLoop, if_pos (by omega)]
      simp only [e1]
      rw [e2]
      congr 1
      omega
    · rw [hs2, hs1, framesFrom, List.append_assoc]

end scripted

theorem blockFrames_eq (fw : List Byte) (j : Nat) :
    blockFrames fw (1024 * j) =
      (Exchange.ask (0x1800 + 1024 * j) ::
        (List.range 4).map (fun k =>
          Exchange.chunk (0x1800 + 1024 * j + 256 * k)
            ((fw.drop (1024 * j + 256 * k)).take 256))).map Exchange.frame := by
  have h4 : List.range 4 = [0, 1, 2, 3] := by decide
  simp only [blockFrames, askFrame, chunkFrame, chunkOffsets, h4, List.map_cons, List.map_nil,
    Exchange.frame, Nat.add_assoc]

theorem framesFrom_range (fw : List Byte) (n : Nat) :
    ∀ bw, framesFrom fw bw n
        = (List.range n).flatMap (fun j => blockFrames fw (bw + 1024 * j)) := by
  induction n with
  | zero => intro bw; simp [framesFrom]
  | succ n ih =>
    intro bw
    have hf : (fun j => blockFrames fw (bw + 1024 + 1024 * j))
        = (fun j => blockFrames fw (bw + 1024 * (j + 1))) := by
      funext j
      rw [Nat.mul_add, Nat.mul_one, Nat.add_assoc, Nat.add_comm 1024]
    rw [framesFrom, ih, hf, List.range_succ_eq_map, List.flatMap_cons, List.flatMap_map]
    rfl

theorem framesFrom_expected (fw : List Byte) :
    framesFrom fw 0 (fw.length / 1024) = (expectedExchanges fw).map Exchange.frame := by
  rw [framesFrom_range, expectedExchanges, List.map_flatMap]
  congr 1
  funext j
  rw [Nat.zero_add, blockFrames_eq]

theorem update_acked (T : Serial σ) (reads : Nat) (S : List Bool → σ → Prop) (hack : Acks T S)
    (fw : List Byte) (s : Port σ) (rest : List Bool) (hlen : fw.length % 1024 = 0)
    (hS : S (List.replicate (5 * (fw.length / 1024)) true ++ rest) s.dev) :
    ∃ s1, update T reads s fw = some (Res.ok (), s1) ∧ S rest s1.dev ∧
      s1.sent = s.sent ++ framesFrom fw 0 (fw.length / 1024) := by
  obtain ⟨s1, e1, hS1, hs1⟩ := blockLoop_acked T reads S fw hack (fw.length / 1024) 1 0 s rest
    (by omega) hS
  refine ⟨s1, ?_, hS1, hs1⟩
  rw [update, Nat.add_comm, e1, blockLoop, if_neg (by omega)]

theorem sim_write_true (rx : List Byte) (plan : List ReadEv) (script : List Bool)
    (raw : List Byte) :
    sim.write ⟨rx, plan, true :: script⟩ raw =
      (⟨raw.length, none⟩, ⟨rx ++ deviceFrame (reply raw), plan, script⟩) := rfl

theorem sim_write_false (rx : List Byte) (plan : List ReadEv) (script : List Bool)
    (raw : List Byte) :
    sim.write ⟨rx, plan, false :: script⟩ raw = (⟨raw.length, none⟩, ⟨rx, plan, script⟩) := rfl

theorem sim_write_nil (rx : List Byte) (plan : List ReadEv) (raw : List Byte) :
    sim.write ⟨rx, plan, []⟩ raw = (⟨raw.length, none⟩, ⟨rx, plan, []⟩) := rfl

theorem reply_length (raw : List Byte) : (reply raw).length ≤ 14 := by
  unfold reply
  split
  · split
    · simp
    · split
      · simp [write_confirmation]
      · split <;> simp
  · simp

/-- On the idle simulated line the device frame of a payload is read back as that payload
and nothing is left. -/
theorem ReadFrame_sim_idle (P : List Byte) (script : List Bool) (sent : List (List Byte))
    (hlen : P.length + 5 < 65536) :
    ReadFrame sim ⟨⟨deviceFrame P, [], script⟩, sent⟩ = (Res.ok P, ⟨⟨[], [], script⟩, sent⟩) := by
  obtain ⟨k, e⟩ := ReadFrame_sim_frame P
    (make_checksum ([0x55, byte ((P.length + 5) % 256), byte ((P.length + 5) / 256)] ++ P))
    [] [] script sent 0x55 _ _ (make_checksum_length _) (Uint16_size _ hlen) rfl
  rw [List.append_nil, List.drop_nil] at e
  rw [deviceFrame_parts, e, if_neg (fun h => h rfl), if_neg (fun h => h rfl)]

/-- An answered exchange on the idle simulated line. -/
theorem communicate_sim_true (script : List Bool) (sent : List (List Byte))
    (req resp : List Byte) :
    communicate sim ⟨⟨[], [], true :: script⟩, sent⟩ req resp =
      (Res.ok (), ⟨⟨[], [], script⟩, sent ++ [hostFrame req]⟩) := by
  have hr := reply_length (hostFrame req)
  have e := ReadFrame_sim_idle (reply (hostFrame req)) script (sent ++ [hostFrame req])
    (by omega)
  simp only [communicate, WriteFrame_eq, WriteAll, sim_write_true, List.nil_append, ne_eq,
    not_true_eq_false, if_false, e]

/-- An unanswered exchange on the idle simulated line ends in a read timeout. -/
theorem communicate_sim_false (script : List Bool) (sent : List (List Byte))
    (req resp : List Byte) :
    communicate sim ⟨⟨[], [], false :: script⟩, sent⟩ req resp =
      (Res.err Err.readTimeout, ⟨⟨[], [], script⟩, sent ++ [hostFrame req]⟩) := by
  simp only [communicate, WriteFrame_eq, WriteAll, sim_write_false, ne_eq,
    not_true_eq_false, if_false]
  rfl

theorem communicate_sim_nil (sent : List (List Byte)) (req resp : List Byte) :
    communicate sim ⟨⟨[], [], []⟩, sent⟩ req resp =
      (Res.err Err.readTimeout, ⟨⟨[], [], []⟩, sent ++ [hostFrame req]⟩) := by
  simp only [communicate, WriteFrame_eq, WriteAll, sim_write_nil, ne_eq,
    not_true_eq_false, if_false]
  rfl

theorem EmptyRx_sim_idle (reads : Nat) (script : List Bool) (sent : List (List Byte)) :
    EmptyRx sim (reads + 1) ⟨⟨[], [], script⟩, sent⟩ = some ⟨⟨[], [], script⟩, sent⟩ := rfl

theorem sim_acks : Acks sim Idle := by
  intro rest s req resp hS
  obtain ⟨d, sent⟩ := s
  simp only [Idle] at hS
  subst hS
  rw [communicate_sim_true]
  exact ⟨rfl, rfl⟩

theorem sim_naks (reads : Nat) : Naks sim (reads + 1) Idle := by
  intro rest s req resp hS
  obtain ⟨d, sent⟩ := s
  simp only [Idle] at hS
  subst hS
  rw [communicate_sim_false]
  exact ⟨⟨_, rfl⟩, _, EmptyRx_sim_idle reads rest _, rfl⟩

theorem block_data (fw : List Byte) (j : Nat) :
    ((Exchange.ask (0x1800 + 1024 * j) ::
        (List.range 4).map (fun k =>
          Exchange.chunk (0x1800 + 1024 * j + 256 * k)
            ((fw.drop (1024 * j + 256 * k)).take 256))).map Exchange.data).flatten
      = (fw.drop (1024 * j)).take 1024 := by
  have h4 : List.range 4 = [0, 1, 2, 3] := by decide
  have hd : ∀ a, fw.drop (1024 * j + a) = (fw.drop (1024 * j)).drop a := by
    intro a; rw [List.drop_drop, Nat.add_comm]
  simp only [h4, List.map_cons, List.map_nil, Exchange.data, List.flatten_cons,
    List.flatten_nil, List.nil_append, List.append_nil, hd]
  generalize fw.drop (1024 * j) = xs
  have h1 : xs.take 1024 = xs.take 256 ++ (xs.drop 256).take 768 := List.take_add xs 256 768
  have h2 : (xs.drop 256).take 768 = (xs.drop 256).take 256 ++ ((xs.drop 256).drop 256).take 512 :=
    List.take_add (xs.drop 256) 256 512
  have h3 : ((xs.drop 256).drop 256).take 512 =
      ((xs.drop 256).drop 256).take 256 ++ (((xs.drop 256).drop 256).drop 256).take 256 :=
    List.take_add ((xs.drop 256).drop 256) 256 256
  rw [h1, h2, h3]
  simp only [List.drop_drop, Nat.mul_zero, List.drop_zero, Nat.mul_one]

theorem blocks_data (fw : List Byte) (n : Nat) :
    (((List.range n).flatMap (fun j =>
        Exchange.ask (0x1800 + 1024 * j) ::
          (List.range 4).map (fun k =>
            Exchange.chunk (0x1800 + 1024 * j + 256 * k)
              ((fw.drop (1024 * j + 256 * k)).take 256)))).map Exchange.data).flatten
      = fw.take (1024 * n) := by
  induction n with
  | zero => simp
  | succ n ih =>
    rw [List.range_succ, List.flatMap_append, List.map_append, List.flatten_append, ih,
      List.flatMap_singleton, block_data, Nat.mul_succ]
    exact (List.take_add fw (1024 * n) 1024).symm

theorem expected_data (fw : List Byte) (hlen : fw.length % 1024 = 0) :
    ((expectedExchanges fw).map Exchange.data).flatten = fw := by
  rw [expectedExchanges, blocks_data]
  exact List.take_of_length_le (by omega)

/-- C7: against a port that acknowledges the exchanges of the upload, for an image whose
length is a multiple of 1024 (`0x9000` is one), `update` returns nil and the frames it hands
to the port are exactly, block by block in increasing order, one `ask_write(0x1800+1024*j)`
followed by `write_chunk(0x1800+1024*j+256*k, image[1024*j+256*k : 1024*j+256*k+256])` for
`k = 0..3`; the data of these exchanges, put end to end, is the image. -/
theorem update_chunking (T : Serial σ) (reads : Nat) (S : List Bool → σ → Prop) (s : Port σ)
    (fw : List Byte) (rest : List Bool) (hack : Acks T S) (hlen : fw.length % 1024 = 0)
    (hS : S (List.replicate (5 * (fw.length / 1024)) true ++ rest) s.dev) :
    ∃ s1, update T reads s fw = some (Res.ok (), s1) ∧
      s1.sent = s.sent ++ (expectedExchanges fw).map Exchange.frame ∧
      ((expectedExchanges fw).map Exchange.data).flatten = fw := by
  obtain ⟨s1, e1, -, hs1⟩ := update_acked T reads S hack fw s rest hlen hS
  exact ⟨s1, e1, by rw [hs1, framesFrom_expected], expected_data fw hlen⟩

/-- Witness of C7: a zero-filled image of `0x9000` bytes on the simulated line whose device
answers 180 exchanges. -/
theorem update_chunking_witness :
    Acks sim Idle ∧ (make 0x9000).length % 1024 = 0 ∧
      Idle (List.replicate (5 * ((make 0x9000).length / 1024)) true ++ [])
        (⟨⟨[], [], List.replicate 180 true⟩, []⟩ : Port Sim).dev ∧
      ∃ s1, update sim 1 ⟨⟨[], [], List.replicate 180 true⟩, []⟩ (make 0x9000) =
          some (Res.ok (), s1) ∧
        s1.sent = [] ++ (expectedExchanges (make 0x9000)).map Exchange.frame ∧
        ((expectedExchanges (make 0x9000)).map Exchange.data).flatten = make 0x9000 :=
  ⟨sim_acks, by rw [make_length], by rw [Idle, make_length, List.append_nil],
    update_chunking sim 1 Idle ⟨⟨[], [], List.replicate 180 true⟩, []⟩ (make 0x9000) []
      sim_acks (by rw [make_length]) (by rw [Idle, make_length, List.append_nil])⟩

theorem failAt_append (e : Nat) (rest : List Bool) :
    failAt e ++ rest = List.replicate e true ++ false :: rest := by
  simp [failAt]

theorem mem_framesFrom (fw : List Byte) (x : List Byte) (cnt bw i : Nat) (hi : i < cnt)
    (hx : x ∈ blockFrames fw (bw + 1024 * i)) : x ∈ framesFrom fw bw cnt := by
  rw [framesFrom_range, List.mem_flatMap]
  exact ⟨i, List.mem_range.mpr hi, hx⟩

theorem chunkFrame_mem (fw : List Byte) (offset : Nat) (h : offset % 256 = 0) :
    hostFrame (write_instruction (0x1800 + offset) ((fw.drop offset).take 256))
      ∈ blockFrames fw (1024 * (offset / 1024)) := by
  have hc : offset % 1024 ∈ chunkOffsets := by
    simp only [chunkOffsets, List.mem_cons, List.mem_singleton, List.not_mem_nil, or_false]
    omega
  have ho : 1024 * (offset / 1024) + offset % 1024 = offset := Nat.div_add_mod offset 1024
  have hm : chunkFrame fw (1024 * (offset / 1024)) (offset % 1024)
      ∈ blockFrames fw (1024 * (offset / 1024)) :=
    List.mem_cons_of_mem _ (List.mem_map_of_mem _ hc)
  rw [chunkFrame, ho] at hm
  exact hm

theorem framesFrom_succ (fw : List Byte) (bw blocks : Nat) :
    framesFrom fw bw (blocks + 1) = blockFrames fw bw ++ framesFrom fw (bw + 1024) blocks := rfl

theorem blockFrames_length (fw : List Byte) (bw : Nat) : (blockFrames fw bw).length = 5 := rfl

theorem framesFrom_length (fw : List Byte) (n : Nat) :
    ∀ bw, (framesFrom fw bw n).length = 5 * n := by
  induction n with
  | zero => intro bw; rfl
  | succ n ih =>
    intro bw
    rw [framesFrom_succ, List.length_append, ih, blockFrames_length]
    omega

theorem failAt_length (e : Nat) : (failAt e).length = e + 1 := by
  simp [failAt]

/-- A frame of a list whose exchanges all succeed is paired with `true`. -/
theorem mem_zip_acked {α : Type} (x : α) (xs : List α) (hx : x ∈ xs) :
    ∀ n, xs.length = n → (x, true) ∈ xs.zip (List.replicate n true) := by
  induction xs with
  | nil => simp at hx
  | cons y ys ih =>
    intro n hn
    cases n with
    | zero => simp at hn
    | succ n =>
      rw [List.replicate_succ, List.zip_cons_cons]
      rcases List.mem_cons.mp hx with h | h
      · rw [h]; exact List.mem_cons_self _ _
      · exact List.mem_cons_of_mem _ (ih h n (by simpa using hn))

/-- The history of an upload with three failed attempts at block `j`, paired exchange by
exchange with its script. -/
theorem retry_zip (fw : List Byte) (j e1 e2 e3 blocks : Nat) (he1 : e1 ≤ 4) (he2 : e2 ≤ 4)
    (he3 : e3 ≤ 4) :
    (framesFrom fw 0 j ++
      ((blockFrames fw (1024 * j)).take (e1 + 1) ++
        ((blockFrames fw (1024 * j)).take (e2 + 1) ++
          ((blockFrames fw (1024 * j)).take (e3 + 1) ++
            framesFrom fw (1024 * j) (blocks - j))))).zip (retryScript blocks j e1 e2 e3) =
    (framesFrom fw 0 j).zip (List.replicate (5 * j) true) ++
      (((blockFrames fw (1024 * j)).take (e1 + 1)).zip (failAt e1) ++
        (((blockFrames fw (1024 * j)).take (e2 + 1)).zip (failAt e2) ++
          (((blockFrames fw (1024 * j)).take (e3 + 1)).zip (failAt e3) ++
            (framesFrom fw (1024 * j) (blocks - j)).zip
              (List.replicate (5 * (blocks - j)) true)))) := by
  have ht : ∀ e, e ≤ 4 → ((blockFrames fw (1024 * j)).take (e + 1)).length = (failAt e).length := by
    intro e he
    rw [List.length_take, blockFrames_length, failAt_length]
    omega
  rw [retryScript, List.zip_append (by rw [framesFrom_length, List.length_replicate]),
    List.zip_append (ht e1 he1), List.zip_append (ht e2 he2), List.zip_append (ht e3 he3)]

/-- C6: for an image whose length is a multiple of 1024, on a port where the first three
attempts at block `j` fail (at any of the five exchanges of an attempt, each failure
followed by an `EmptyRx` that finishes) and every other exchange succeeds, `update` returns
nil, every scripted exchange has taken place, and the frames handed to the port are exactly:
the blocks before `j`, each attempted once; the frames of the three failed attempts at block
`j`, each up to and including the exchange that failed; then block `j` (the fourth attempt)
and the blocks after it, each attempted once.  For every offset that is a multiple of 256 the
frame of `write_chunk(0x1800+offset, image[offset : offset+256])` is in that history, at the
place of an exchange that succeeded: every exchange hands one frame to the port and takes one
entry of the script, so the history is paired with the script entry by entry. -/
theorem update_retry_success (T : Serial σ) (reads : Nat) (S : List Bool → σ → Prop) (s : Port σ)
    (fw : List Byte) (j e1 e2 e3 : Nat) (hack : Acks T S) (hnak : Naks T reads S)
    (hlen : fw.length % 1024 = 0) (hj : j < fw.length / 1024)
    (he1 : e1 ≤ 4) (he2 : e2 ≤ 4) (he3 : e3 ≤ 4)
    (hS : S (retryScript (fw.length / 1024) j e1 e2 e3) s.dev) :
    ∃ s1, update T reads s fw = some (Res.ok (), s1) ∧ S [] s1.dev ∧
      s1.sent = s.sent ++ (framesFrom fw 0 j ++
        ((blockFrames fw (1024 * j)).take (e1 + 1) ++
          ((blockFrames fw (1024 * j)).take (e2 + 1) ++
            ((blockFrames fw (1024 * j)).take (e3 + 1) ++
              framesFrom fw (1024 * j) (fw.length / 1024 - j))))) ∧
      ∀ offset, offset % 256 = 0 → offset < fw.length →
        hostFrame (write_instruction (0x1800 + offset) ((fw.drop offset).take 256))
            ∈ s1.sent ∧
          (hostFrame (write_instruction (0x1800 + offset) ((fw.drop offset).take 256)), true)
            ∈ (s1.sent.drop s.sent.length).zip (retryScript (fw.length / 1024) j e1 e2 e3) := by
  have hfitj : 1024 * j + 1024 ≤ fw.length := by omega
  have hS0 := hS
  rw [retryScript] at hS0
  -- the blocks before block `j`
  obtain ⟨s1, u1, hS1, hs1⟩ := blockLoop_acked T reads S fw hack j (fw.length / 1024 - j + 1) 0 s
    _ (by omega) hS0
  -- three failed attempts at block `j`
  rw [failAt_append] at hS1
  obtain ⟨s2, u2, hS2, hs2⟩ := askLoop_failed T reads S fw hack hnak (0 + 1024 * j) 3 e1 0 s1 _
    he1 (by omega) (by omega) hS1
  rw [failAt_append] at hS2
  obtain ⟨s3, u3, hS3, hs3⟩ := askLoop_failed T reads S fw hack hnak (0 + 1024 * j) 2 e2 1 s2 _
    he2 (by omega) (by omega) hS2
  rw [failAt_append] at hS3
  obtain ⟨s4, u4, hS4, hs4⟩ := askLoop_failed T reads S fw hack hnak (0 + 1024 * j) 1 e3 2 s3 _
    he3 (by omega) (by omega) hS3
  -- the fourth attempt
  have hsplit : List.replicate (5 * (fw.length / 1024 - j)) true
      = List.replicate 5 true ++ (List.replicate (5 * (fw.length / 1024 - j - 1)) true ++ []) := by
    rw [List.append_nil, ← List.replicate_add]
    congr 1
    omega
  rw [hsplit] at hS4
  obtain ⟨s5, u5, hS5, hs5⟩ := askLoop_acked T reads S fw hack (0 + 1024 * j) 0 3 s4 _
    (by omega) hS4
  -- the blocks after block `j`
  obtain ⟨s6, u6, hS6, hs6⟩ := blockLoop_acked T reads S fw hack (fw.length / 1024 - j - 1) 1
    (0 + 1024 * j + 1024) s5 [] (by omega) hS5
  have hrest : framesFrom fw (1024 * j) (fw.length / 1024 - j) =
      blockFrames fw (1024 * j) ++ framesFrom fw (1024 * j + 1024) (fw.length / 1024 - j - 1) := by
    have hb : fw.length / 1024 - j = (fw.length / 1024 - j - 1) + 1 := by omega
    rw [hb, framesFrom_succ]
    rfl
  have hsent : s6.sent = s.sent ++ (framesFrom fw 0 j ++
      ((blockFrames fw (1024 * j)).take (e1 + 1) ++
        ((blockFrames fw (1024 * j)).take (e2 + 1) ++
          ((blockFrames fw (1024 * j)).take (e3 + 1) ++
            framesFrom fw (1024 * j) (fw.length / 1024 - j))))) := by
    rw [hs6, hs5, hs4, hs3, hs2, hs1, hrest, Nat.zero_add]
    simp only [List.append_assoc]
  refine ⟨s6, ?_, hS6, hsent, ?_⟩
  · have hg1 : fw.length / 1024 + 1 = (fw.length / 1024 - j + 1) + j := by omega
    have hg2 : fw.length / 1024 - j = 1 + (fw.length / 1024 - j - 1) := by omega
    rw [update, hg1, u1, blockLoop, if_pos (by omega)]
    simp only [u2, u3, u4, u5]
    rw [hg2, u6, blockLoop, if_neg (by omega)]
  · intro offset hmod hlt
    have hmem := chunkFrame_mem fw offset hmod
    have hz : (hostFrame (write_instruction (0x1800 + offset) ((fw.drop offset).take 256)), true)
        ∈ (s6.sent.drop s.sent.length).zip (retryScript (fw.length / 1024) j e1 e2 e3) := by
      rw [hsent, List.drop_left, retry_zip fw j e1 e2 e3 (fw.length / 1024) he1 he2 he3]
      rcases Nat.lt_or_ge (offset / 1024) j with hb | hb
      · exact List.mem_append_left _ (mem_zip_acked _ _
          (mem_framesFrom fw _ j 0 (offset / 1024) hb (by rw [Nat.zero_add]; exact hmem))
          _ (framesFrom_length fw j 0))
      · have hi : offset / 1024 - j < fw.length / 1024 - j := by omega
        have ha : 1024 * j + 1024 * (offset / 1024 - j) = 1024 * (offset / 1024) := by omega
        exact List.mem_append_right _ (List.mem_append_right _ (List.mem_append_right _
          (List.mem_append_right _ (mem_zip_acked _ _
            (mem_framesFrom fw _ (fw.length / 1024 - j) (1024 * j) (offset / 1024 - j) hi
              (by rw [ha]; exact hmem))
            _ (framesFrom_length fw (fw.length / 1024 - j) (1024 * j))))))
    exact ⟨List.mem_of_mem_drop (List.of_mem_zip hz).1, hz⟩

/-- No path through the body of the outer loop ends in an error value. -/
theorem askLoop_no_err (T : Serial σ) (reads : Nat) (fw : List Byte) (bw gas : Nat) :
    ∀ (tries : Nat) (s s1 : Port σ) (r : Res Unit) (e : Err),
      askLoop T reads fw bw gas tries s = some (r, s1) → r ≠ Res.err e := by
  induction gas with
  | zero => intro tries s s1 r e h; simp [askLoop] at h
  | succ gas ih =>
    intro tries s s1 r e h
    rw [askLoop] at h
    split at h
    · simp only [Option.some.injEq, Prod.mk.injEq] at h
      rw [← h.1]; exact fun h => Res.noConfusion h
    · split at h
      · split at h
        · exact absurd h (by simp)
        · exact ih _ _ _ _ _ h
      · split at h
        · exact absurd h (by simp)
        · simp only [Option.some.injEq, Prod.mk.injEq] at h
          rw [← h.1]; exact fun h => Res.noConfusion h
        · exact ih _ _ _ _ _ h
        · simp only [Option.some.injEq, Prod.mk.injEq] at h
          rw [← h.1]; exact fun h => Res.noConfusion h
    · split at h
      · exact absurd h (by simp)
      · simp only [Option.some.injEq, Prod.mk.injEq] at h
        rw [← h.1]; exact fun h => Res.noConfusion h
      · exact ih _ _ _ _ _ h
      · simp only [Option.some.injEq, Prod.mk.injEq] at h
        rw [← h.1]; exact fun h => Res.noConfusion h

theorem blockLoop_no_err (T : Serial σ) (reads : Nat) (fw : List Byte) (gas : Nat) :
    ∀ (bw : Nat) (s s1 : Port σ) (r : Res Unit) (e : Err),
      blockLoop T reads fw gas bw s = some (r, s1) → r ≠ Res.err e := by
  induction gas with
  | zero =>
    intro bw s s1 r e h
    rw [blockLoop] at h
    split at h
    · exact absurd h (by simp)
    · simp only [Option.some.injEq, Prod.mk.injEq] at h
      rw [← h.1]; exact fun h => Res.noConfusion h
  | succ gas ih =>
    intro bw s s1 r e h
    rw [blockLoop] at h
    split at h
    · split at h
      · exact absurd h (by simp)
      · exact ih _ _ _ _ _ h
      · next e1 s2 he1 => exact absurd rfl (askLoop_no_err T reads fw bw 4 0 s s2 _ e1 he1)
      · simp only [Option.some.injEq, Prod.mk.injEq] at h
        rw [← h.1]; exact fun h => Res.noConfusion h
    · simp only [Option.some.injEq, Prod.mk.injEq] at h
      rw [← h.1]; exact fun h => Res.noConfusion h

theorem update_no_err (T : Serial σ) (reads : Nat) (s : Port σ) (fw : List Byte) (e : Err) :
    (update T reads s fw).map Prod.fst ≠ some (Res.err e) := by
  intro h
  cases hu : update T reads s fw with
  | none => rw [hu] at h; simp at h
  | some p =>
    obtain ⟨r, s1⟩ := p
    rw [hu] at h
    simp only [Option.map_some', Option.some.injEq] at h
    exact blockLoop_no_err T reads fw _ 0 s s1 r e hu h

theorem chunkLoop_dead (reads : Nat) (fw : List Byte) (bw : Nat) (cs : List Nat) :
    ∀ (tries : Nat) (sent : List (List Byte)), 3 ≤ tries →
      (∀ c ∈ cs, bw + c + 256 ≤ fw.length) →
      chunkLoop sim reads fw bw cs tries ⟨⟨[], [], []⟩, sent⟩ =
        some (Flow.next (tries + cs.length),
          ⟨⟨[], [], []⟩, sent ++ cs.map (chunkFrame fw bw)⟩) := by
  induction cs with
  | nil => intro tries sent _ _; simp [chunkLoop]
  | cons c cs ih =>
    intro tries sent ht hin
    have hc : bw + c + 256 ≤ fw.length := hin c (List.mem_cons_self _ _)
    have hsl := slice_some fw (bw + c) (bw + c + 256) (by omega) hc
    rw [Nat.add_sub_cancel_left] at hsl
    rw [chunkLoop]
    simp only [hsl, write_chunk, communicate_sim_nil]
    rw [if_neg (by omega), ih (tries + 1) _ (by omega)
      (fun c' hc' => hin c' (List.mem_cons_of_mem _ hc'))]
    simp [chunkFrame, Nat.add_assoc, Nat.add_comm 1]

theorem askLoop_dead (reads : Nat) (fw : List Byte) (bw : Nat) (sent : List (List Byte))
    (hfit : bw + 1024 ≤ fw.length) :
    askLoop sim (reads + 1) fw bw 4 0 ⟨⟨[], [], []⟩, sent⟩ =
      some (Res.ok (), ⟨⟨[], [], []⟩, sent ++ deadBlock fw bw⟩) := by
  have hch := fun sent => chunkLoop_dead (reads + 1) fw bw chunkOffsets 4 sent (by omega)
    (chunkOffsets_in fw bw hfit)
  simp only [askLoop, ask_write, communicate_sim_nil, EmptyRx_sim_idle, hch]
  simp [deadBlock, askFrame, List.replicate]

theorem blockLoop_dead (reads : Nat) (fw : List Byte) (j : Nat) :
    ∀ (gas bw : Nat) (sent : List (List Byte)), bw + 1024 * j ≤ fw.length →
      blockLoop sim (reads + 1) fw (gas + j) bw ⟨⟨[], [], []⟩, sent⟩ =
        blockLoop sim (reads + 1) fw gas (bw + 1024 * j)
          ⟨⟨[], [], []⟩, sent ++ deadFrames fw bw j⟩ := by
  induction j with
  | zero => intro gas bw sent _; simp [deadFrames]
  | succ j ih =>
    intro gas bw sent hfit
    have hg : gas + (j + 1) = (gas + j) + 1 := by omega
    rw [hg, blockLoop, if_pos (by omega), askLoop_dead reads fw bw sent (by omega)]
    simp only []
    rw [ih gas (bw + 1024) _ (by omega), deadFrames, List.append_assoc]
    congr 1
    omega

theorem update_dead (reads : Nat) (fw : List Byte) (sent : List (List Byte))
    (hlen : fw.length % 1024 = 0) :
    update sim (reads + 1) ⟨⟨[], [], []⟩, sent⟩ fw =
      some (Res.ok (), ⟨⟨[], [], []⟩, sent ++ deadFrames fw 0 (fw.length / 1024)⟩) := by
  rw [update, Nat.add_comm (fw.length / 1024) 1,
    blockLoop_dead reads fw (fw.length / 1024) 1 0 sent (by omega), blockLoop,
    if_neg (by omega)]

theorem deadFrames_length (fw : List Byte) (n : Nat) :
    ∀ bw, (deadFrames fw bw n).length = 8 * n := by
  induction n with
  | zero => intro bw; rfl
  | succ n ih =>
    intro bw
    rw [deadFrames, List.length_append, ih]
    simp [deadBlock, chunkOffsets]
    omega

theorem deadFrames_front (fw : List Byte) (n : Nat) :
    ([] ++ deadFrames fw 0 (n + 1)).take 4 = List.replicate 4 (hostFrame (ask_permission 0x1800)) ∧
      ([] ++ deadFrames fw 0 (n + 1))[4]? =
        some (hostFrame (write_instruction 0x1800 (fw.take 256))) :=
  ⟨rfl, rfl⟩

/-- C5 (what the code does): `update` never returns an error, whatever the port does; on a
line whose device never answers every exchange ends in a read timeout, so all four attempts
at every block fail, and `update` of a `0x9000`-byte image still returns nil. -/
theorem update_swallows_retry_exhaustion :
    (∀ (τ : Type) (T : Serial τ) (reads : Nat) (s : Port τ) (fw : List Byte) (e : Err),
        (update T reads s fw).map Prod.fst ≠ some (Res.err e)) ∧
      (∀ (sent : List (List Byte)) (req resp : List Byte),
        (communicate sim ⟨⟨[], [], []⟩, sent⟩ req resp).1 = Res.err Err.readTimeout) ∧
      (update sim 1 ⟨⟨[], [], []⟩, []⟩ (make 0x9000)).map Prod.fst = some (Res.ok ()) := by
  refine ⟨fun _ T reads s fw e => update_no_err T reads s fw e, ?_, ?_⟩
  · intro sent req resp
    rw [communicate_sim_nil]
  · rw [update_dead 0 (make 0x9000) [] (by rw [make_length])]
    rfl

/-- C8 (what the code does): on a line whose device never answers, `update` of a
`0x9000`-byte image first sends the request for block 0 four times (the fourth failure
exhausts the retries), then goes on with the first sub-chunk of that block, and has handed
288 frames to the port when it returns nil. -/
theorem update_writes_after_retry_exhaustion :
    ∃ s1, update sim 1 ⟨⟨[], [], []⟩, []⟩ (make 0x9000) = some (Res.ok (), s1) ∧
      s1.sent.take 4 = List.replicate 4 (hostFrame (ask_permission 0x1800)) ∧
      s1.sent[4]? = some (hostFrame (write_instruction 0x1800 ((make 0x9000).take 256))) ∧
      s1.sent.length = 288 := by
  have hl : (make 0x9000).length / 1024 = 35 + 1 := by rw [make_length]
  refine ⟨_, update_dead 0 (make 0x9000) [] (by rw [make_length]), ?_, ?_, ?_⟩
  · rw [hl]
    exact (deadFrames_front _ 35).1
  · rw [hl]
    exact (deadFrames_front _ 35).2
  · rw [List.nil_append, deadFrames_length, make_length]

/-- Witness of C6: a zero-filled image of `0x9000` bytes; the attempts at block 17 fail at the
request, at the second sub-chunk and at the last sub-chunk. -/
theorem update_retry_success_witness :
    Acks sim Idle ∧ Naks sim 1 Idle ∧ (make 0x9000).length % 1024 = 0 ∧
      17 < (make 0x9000).length / 1024 ∧
      Idle (retryScript ((make 0x9000).length / 1024) 17 0 2 4)
        (⟨⟨[], [], retryScript 36 17 0 2 4⟩, []⟩ : Port Sim).dev ∧
      ∃ s1, update sim 1 ⟨⟨[], [], retryScript 36 17 0 2 4⟩, []⟩ (make 0x9000) =
          some (Res.ok (), s1) ∧ Idle [] s1.dev ∧
        s1.sent = [] ++ (framesFrom (make 0x9000) 0 17 ++
          ((blockFrames (make 0x9000) (1024 * 17)).take (0 + 1) ++
            ((blockFrames (make 0x9000) (1024 * 17)).take (2 + 1) ++
              ((blockFrames (make 0x9000) (1024 * 17)).take (4 + 1) ++
                framesFrom (make 0x9000) (1024 * 17) ((make 0x9000).length / 1024 - 17))))) ∧
        ∀ offset, offset % 256 = 0 → offset < (make 0x9000).length →
          hostFrame (write_instruction (0x1800 + offset) (((make 0x9000).drop offset).take 256))
              ∈ s1.sent ∧
            (hostFrame (write_instruction (0x1800 + offset)
                (((make 0x9000).drop offset).take 256)), true)
              ∈ (s1.sent.drop 0).zip (retryScript ((make 0x9000).length / 1024) 17 0 2 4) :=
  ⟨sim_acks, sim_naks 0, by rw [make_length], by rw [make_length]; decide,
    by rw [Idle, make_length],
    update_retry_success sim 1 Idle ⟨⟨[], [], retryScript 36 17 0 2 4⟩, []⟩ (make 0x9000)
      17 0 2 4 sim_acks (sim_naks 0) (by rw [make_length]) (by rw [make_length]; decide)
      (by decide) (by decide) (by decide) (by rw [Idle, make_length])⟩

/-! ## Ping and the request layouts -/

/-- What `ping` does on the silent simulated line with a device frame already waiting. -/
theorem ping_sim_waiting (a0 : Byte) (tail : List Byte) (sent : List (List Byte))
    (hlen : tail.length + 6 < 65536) :
    ping sim ⟨⟨deviceFrame (a0 :: tail), [], []⟩, sent⟩ =
      (if a0 ≠ 0xC0 then Res.err Err.unexpectedPing else Res.ok (a0 :: tail),
        ⟨⟨[], [], []⟩, sent ++ [[0x05, 0x00, 0xC0, 0x3A, 0xFF]]⟩) := by
  have e := ReadFrame_sim_idle (a0 :: tail) [] (sent ++ [[0x05, 0x00, 0xC0, 0x3A, 0xFF]])
    (by simp only [List.length_cons]; omega)
  have hw : WriteFrame sim ⟨⟨deviceFrame (a0 :: tail), [], []⟩, sent⟩ [0xC0] =
      (Res.ok (),
        ⟨⟨deviceFrame (a0 :: tail), [], []⟩, sent ++ [[0x05, 0x00, 0xC0, 0x3A, 0xFF]]⟩) := by
    simp only [WriteFrame_eq, WriteAll, sim_write_nil, ne_eq, not_true_eq_false, if_false]
    rfl
  simp only [ping, hw, e]
  split <;> rfl

theorem ping_sent (T : Serial σ) (s : Port σ) :
    (ping T s).2.sent = s.sent ++ [[0x05, 0x00, 0xC0, 0x3A, 0xFF]] := by
  have h1 : (WriteFrame T s [0xC0]).2.sent = s.sent ++ [[0x05, 0x00, 0xC0, 0x3A, 0xFF]] := by
    rw [WriteFrame_eq, WriteAll_sent]; rfl
  unfold ping
  split
  · next s1 he => rw [he] at h1; exact h1
  · next e s1 he => rw [he] at h1; exact h1
  · next u s1 he =>
    rw [he] at h1
    have h2 := ReadFrame_sent T s1
    split
    · next s2 he2 => rw [he2] at h2; exact h2.trans h1
    · next e s2 he2 => rw [he2] at h2; exact h2.trans h1
    · next answer s2 he2 =>
      rw [he2] at h2
      split
      · exact h2.trans h1
      · split <;> exact h2.trans h1

/-- C11 (what the code does): `ping` always writes the frame `05 00 C0 3A FF`; for a
well-formed, correctly checksummed response with a non-empty payload it returns the payload
when the first byte is `0xC0` and the unexpected-answer error otherwise (`C0 80` succeeds,
`C1` fails); for the valid response with an empty payload, which `ReadFrame` returns without
error, `answer[0]` is out of range and `ping` panics. -/
theorem ping_result_by_first_byte :
    (∀ (τ : Type) (T : Serial τ) (s : Port τ),
        (ping T s).2.sent = s.sent ++ [[0x05, 0x00, 0xC0, 0x3A, 0xFF]]) ∧
      (∀ (a0 : Byte) (tail : List Byte), tail.length + 6 < 65536 →
        (ping sim ⟨⟨deviceFrame (a0 :: tail), [], []⟩, []⟩).1 =
          if a0 = 0xC0 then Res.ok (a0 :: tail) else Res.err Err.unexpectedPing) ∧
      (ping sim ⟨⟨deviceFrame [0xC0, 0x80], [], []⟩, []⟩).1 = Res.ok [0xC0, 0x80] ∧
      (ping sim ⟨⟨deviceFrame [0xC1], [], []⟩, []⟩).1 = Res.err Err.unexpectedPing ∧
      (ReadFrame sim ⟨⟨deviceFrame [], [], []⟩, [[0x05, 0x00, 0xC0, 0x3A, 0xFF]]⟩).1 = Res.ok [] ∧
      (ping sim ⟨⟨deviceFrame [], [], []⟩, []⟩).1 = Res.panic := by
  refine ⟨?_, ?_, by decide, by decide, by decide, by decide⟩
  · intro τ T s
    exact ping_sent T s
  · intro a0 tail h
    rw [ping_sim_waiting a0 tail [] h]
    by_cases h0 : a0 = 0xC0 <;> simp [h0]

/-- C12: for a 16-bit address `a` and 256 data bytes `D`, `write_chunk` sends the 263-byte
payload `C3, a mod 256, a div 256, 00, 00, 00, 01` followed by `D`, in a frame whose length
field is 267, and the confirmation it passes to `communicate` is `C3 00 00 00 00`. -/
theorem write_chunk_request_layout (T : Serial σ) (s : Port σ) (a : Nat) (D : List Byte)
    (ha : a < 65536) (hD : D.length = 256) :
    write_instruction a D = [0xC3, byte (a % 256), byte (a / 256), 0x00, 0x00, 0x00, 0x01] ++ D ∧
      (byte (a % 256)).val = a % 256 ∧ (byte (a / 256)).val = a / 256 ∧
      (write_instruction a D).length = 263 ∧
      write_confirmation = [0xC3, 0x00, 0x00, 0x00, 0x00] ∧
      write_chunk T s a D =
        communicate T s ([0xC3, byte (a % 256), byte (a / 256), 0x00, 0x00, 0x00, 0x01] ++ D)
          [0xC3, 0x00, 0x00, 0x00, 0x00] ∧
      (write_chunk T s a D).2.sent =
        s.sent ++ [LE16 267 ++ ([0xC3, byte (a % 256), byte (a / 256), 0x00, 0x00, 0x00, 0x01] ++ D)
          ++ make_checksum
            (LE16 267 ++
              ([0xC3, byte (a % 256), byte (a / 256), 0x00, 0x00, 0x00, 0x01] ++ D))] := by
  have hp : write_instruction a D =
      [0xC3, byte (a % 256), byte (a / 256), 0x00, 0x00, 0x00, 0x01] ++ D := by
    simp only [write_instruction, PutUint16_uint16, LE16]
    rfl
  have hl : (write_instruction a D).length = 263 := by
    rw [hp, List.length_append, hD]; rfl
  refine ⟨hp, ?_, ?_, hl, rfl, ?_, ?_⟩
  · rw [byte_val]; omega
  · rw [byte_val]; omega
  · rw [write_chunk, hp]; rfl
  · rw [write_chunk, communicate_sent, hostFrame_eq, hl, hp]

/-- Witness of C12 at address `0x1800` with 256 zero bytes. -/
theorem write_chunk_request_layout_witness :
    (0x1800 : Nat) < 65536 ∧ (make 256).length = 256 ∧
      write_instruction 0x1800 (make 256) =
        [0xC3, byte (0x1800 % 256), byte (0x1800 / 256), 0x00, 0x00, 0x00, 0x01] ++ make 256 ∧
      (write_instruction 0x1800 (make 256)).length = 263 :=
  ⟨by decide, make_length 256,
    (write_chunk_request_layout sim ⟨⟨[], [], []⟩, []⟩ 0x1800 (make 256) (by decide)
      (make_length 256)).1,
    (write_chunk_request_layout sim ⟨⟨[], [], []⟩, []⟩ 0x1800 (make 256) (by decide)
      (make_length 256)).2.2.2.1⟩

/-- C13: for a 16-bit address `a`, `ask_write` sends the 13 bytes `C2, a mod 256, a div 256,
00, 09` and eight zero bytes, and the acknowledgement it passes to `communicate` is the 14
bytes `C2, 80, a mod 256, a div 256, 00, 09` and eight zero bytes. -/
theorem ask_write_request_layout (T : Serial σ) (s : Port σ) (a : Nat) (ha : a < 65536) :
    ask_permission a =
        [0xC2, byte (a % 256), byte (a / 256), 0x00, 0x09, 0, 0, 0, 0, 0, 0, 0, 0] ∧
      get_permission a =
        [0xC2, 0x80, byte (a % 256), byte (a / 256), 0x00, 0x09, 0, 0, 0, 0, 0, 0, 0, 0] ∧
      (byte (a % 256)).val = a % 256 ∧ (byte (a / 256)).val = a / 256 ∧
      ask_write T s a =
        communicate T s
          [0xC2, byte (a % 256), byte (a / 256), 0x00, 0x09, 0, 0, 0, 0, 0, 0, 0, 0]
          [0xC2, 0x80, byte (a % 256), byte (a / 256), 0x00, 0x09, 0, 0, 0, 0, 0, 0, 0, 0] ∧
      (ask_write T s a).2.sent =
        s.sent ++ [LE16 17 ++
          [0xC2, byte (a % 256), byte (a / 256), 0x00, 0x09, 0, 0, 0, 0, 0, 0, 0, 0] ++
          make_checksum (LE16 17 ++
            [0xC2, byte (a % 256), byte (a / 256), 0x00, 0x09, 0, 0, 0, 0, 0, 0, 0, 0])] := by
  have hp : ask_permission a =
      [0xC2, byte (a % 256), byte (a / 256), 0x00, 0x09, 0, 0, 0, 0, 0, 0, 0, 0] := by
    simp only [ask_permission, PutUint16_uint16, LE16]
    rfl
  have hg : get_permission a =
      [0xC2, 0x80, byte (a % 256), byte (a / 256), 0x00, 0x09, 0, 0, 0, 0, 0, 0, 0, 0] := by
    simp only [get_permission, PutUint16_uint16, LE16]
    rfl
  refine ⟨hp, hg, ?_, ?_, ?_, ?_⟩
  · rw [byte_val]; omega
  · rw [byte_val]; omega
  · rw [ask_write, hp, hg]
  · rw [ask_write, communicate_sent, hostFrame_eq, hp]
    rfl

/-- Witness of C13 at address `0x1800`. -/
theorem ask_write_request_layout_witness :
    (0x1800 : Nat) < 65536 ∧
      ask_permission 0x1800 =
        [0xC2, byte (0x1800 % 256), byte (0x1800 / 256), 0x00, 0x09, 0, 0, 0, 0, 0, 0, 0, 0] ∧
      get_permission 0x1800 =
        [0xC2, 0x80, byte (0x1800 % 256), byte (0x1800 / 256), 0x00, 0x09,
          0, 0, 0, 0, 0, 0, 0, 0] :=
  ⟨by decide, (ask_write_request_layout sim ⟨⟨[], [], []⟩, []⟩ 0x1800 (by decide)).1,
    (ask_write_request_layout sim ⟨⟨[], [], []⟩, []⟩ 0x1800 (by decide)).2.1⟩

/-! ## Malformed and reordered device frames -/

/-- C15: on a stream of at least three bytes whose first byte is not `0x55`, read in any
split into non-empty reads, `ReadFrame` fails with the invalid-response error, returns no
payload and has taken exactly the three header bytes, whatever the size field and the rest
of the stream are. -/
theorem ReadFrame_bad_marker (h0 h1 h2 : Byte) (rest : List Byte) (plan : List ReadEv)
    (script : List Bool) (sent : List (List Byte)) (hm : h0 ≠ 0x55)
    (hplan : plan.all ReadEv.delivers = true) :
    ∃ k, ReadFrame sim ⟨⟨h0 :: h1 :: h2 :: rest, plan, script⟩, sent⟩ =
      (Res.err Err.invalidResponse, ⟨⟨rest, plan.drop k, script⟩, sent⟩) := by
  obtain ⟨k, e⟩ := ReadAll_sim [h0, h1, h2] rest plan script sent 3 rfl hplan
  refine ⟨k, ?_⟩
  simp only [List.cons_append, List.nil_append] at e
  simp only [ReadFrame, e]
  rw [if_pos hm]

/-- Witness of C15: marker `54`, size field `FF FF`, two further bytes. -/
theorem ReadFrame_bad_marker_witness :
    (0x54 : Byte) ≠ 0x55 ∧ [ReadEv.upTo 2].all ReadEv.delivers = true ∧
      ∃ k, ReadFrame sim ⟨⟨0x54 :: 0xFF :: 0xFF :: [1, 2], [ReadEv.upTo 2], []⟩, []⟩ =
        (Res.err Err.invalidResponse, ⟨⟨[1, 2], [ReadEv.upTo 2].drop k, []⟩, []⟩) :=
  ⟨by decide, by decide,
    ReadFrame_bad_marker 0x54 0xFF 0xFF [1, 2] [ReadEv.upTo 2] [] [] (by decide) (by decide)⟩

theorem ReadAll_neg (T : Serial σ) (s : Port σ) (n : Int) (h : n < 0) :
    ReadAll T s n = (Res.panic, s) := by
  rw [ReadAll, if_pos h]

theorem ReadFrame_sim_short (s0 s1 : Byte) (body rest : List Byte) (plan : List ReadEv)
    (script : List Bool) (sent : List (List Byte)) (hplan : plan.all ReadEv.delivers = true)
    (hbody : body.length = Uint16 s0 s1 - 3) (hsize : Uint16 s0 s1 < 5) :
    (ReadFrame sim ⟨⟨[0x55, s0, s1] ++ body ++ rest, plan, script⟩, sent⟩).1 = Res.panic := by
  obtain ⟨k1, e1⟩ := ReadAll_sim [0x55, s0, s1] (body ++ rest) plan script sent 3 rfl hplan
  simp only [List.append_assoc] at e1 ⊢
  by_cases h3 : Uint16 s0 s1 < 3
  · have hneg : ((Uint16 s0 s1 : Nat) : Int) - 3 < 0 := by omega
    simp only [ReadFrame, e1, ReadAll_neg _ _ _ hneg]
    simp
  · obtain ⟨k2, e2⟩ := ReadAll_sim body rest (plan.drop k1) script sent
      ((Uint16 s0 s1 : Nat) - 3) (by omega) (delivers_drop plan k1 hplan)
    have hb : body.length < 2 := by omega
    simp only [ReadFrame, e1, e2]
    simp [hb]

/-- C18: on a stream that starts with the marker `0x55` and supplies the `size - 3` bytes
the size field asks for, `ReadFrame` panics (negative `make`, or a slice bound below zero)
exactly when the declared size is below 5; for a declared size of 5 or more it returns the
checksum error or a payload of exactly `size - 5` bytes. -/
theorem ReadFrame_bounds (s0 s1 : Byte) (body rest : List Byte) (plan : List ReadEv)
    (script : List Bool) (sent : List (List Byte)) (hplan : plan.all ReadEv.delivers = true)
    (hbody : body.length = Uint16 s0 s1 - 3) :
    ((ReadFrame sim ⟨⟨[0x55, s0, s1] ++ body ++ rest, plan, script⟩, sent⟩).1 = Res.panic ↔
        Uint16 s0 s1 < 5) ∧
      (5 ≤ Uint16 s0 s1 →
        (ReadFrame sim ⟨⟨[0x55, s0, s1] ++ body ++ rest, plan, script⟩, sent⟩).1 =
            Res.err Err.invalidChecksum ∨
          ∃ payload,
            (ReadFrame sim ⟨⟨[0x55, s0, s1] ++ body ++ rest, plan, script⟩, sent⟩).1 =
              Res.ok payload ∧ payload.length = Uint16 s0 s1 - 5) := by
  have hlong : 5 ≤ Uint16 s0 s1 →
      (ReadFrame sim ⟨⟨[0x55, s0, s1] ++ body ++ rest, plan, script⟩, sent⟩).1 =
            Res.err Err.invalidChecksum ∨
          ∃ payload,
            (ReadFrame sim ⟨⟨[0x55, s0, s1] ++ body ++ rest, plan, script⟩, sent⟩).1 =
              Res.ok payload ∧ payload.length = Uint16 s0 s1 - 5 := by
    intro h5
    have hsplit : body = body.take (body.length - 2) ++ body.drop (body.length - 2) :=
      (List.take_append_drop _ _).symm
    have hP : (body.take (body.length - 2)).length = Uint16 s0 s1 - 5 := by
      rw [List.length_take]; omega
    have hC : (body.drop (body.length - 2)).length = 2 := by
      rw [List.length_drop]; omega
    obtain ⟨k, e⟩ := ReadFrame_sim_frame (body.take (body.length - 2))
      (body.drop (body.length - 2)) rest plan script sent 0x55 s0 s1 hC (by rw [hP]; omega) hplan
    rw [List.append_assoc [0x55, s0, s1], ← hsplit, if_neg (fun h => h rfl)] at e
    rw [e]
    by_cases hc : body.drop (body.length - 2)
        ≠ make_checksum ([0x55, s0, s1] ++ body.take (body.length - 2))
    · left; rw [if_pos hc]
    · right; rw [if_neg hc]; exact ⟨_, rfl, hP⟩
  refine ⟨⟨?_, fun h => ReadFrame_sim_short s0 s1 body rest plan script sent hplan hbody h⟩,
    hlong⟩
  intro hp
  by_contra hn
  rcases hlong (by omega) with h | ⟨payload, h, -⟩
  · rw [h] at hp; exact Res.noConfusion hp
  · rw [h] at hp; exact Res.noConfusion hp

/-- Witness of C18: declared size 4 with its one body byte. -/
theorem ReadFrame_bounds_witness :
    ([] : List ReadEv).all ReadEv.delivers = true ∧
      ([7] : List Byte).length = Uint16 4 0 - 3 ∧
      ((ReadFrame sim ⟨⟨[0x55, 4, 0] ++ [7] ++ [], [], []⟩, []⟩).1 = Res.panic ↔
        Uint16 4 0 < 5) :=
  ⟨by decide, by decide,
    (ReadFrame_bounds 4 0 [7] [] [] [] [] (by decide) (by decide)).1⟩

/-- A replaced payload byte changes the checksum of the frame. -/
theorem make_checksum_set_ne (H P : List Byte) (j : Nat) (b : Byte) (hj : j < P.length)
    (hb : P[j]? ≠ some b) : make_checksum (H ++ P) ≠ make_checksum (H ++ P.set j b) := by
  obtain ⟨x, hx⟩ : ∃ x, P[j]? = some x := ⟨P[j], List.getElem?_eq_getElem hj⟩
  have hxb : x ≠ b := by
    intro h; rw [hx, h] at hb; exact hb rfl
  have hsum := byteSum_set P j b x hx
  have hxv : x.val ≠ b.val := fun h => hxb (Fin.ext h)
  have h1 := x.isLt
  have h2 := b.isLt
  apply make_checksum_ne
  · rw [byteSum_append, byteSum_append]; omega
  · rw [byteSum_append, byteSum_append]; omega
  · rw [byteSum_append, byteSum_append]; omega

/-- C19: in a valid device frame, replacing one byte of the payload or of the two-byte
checksum trailer by a different value makes `ReadFrame` return the invalid-checksum error;
the bytes of the frame are taken from the line and those after it are left. -/
theorem ReadFrame_detects_body_corruption (P rest : List Byte) (plan : List ReadEv)
    (script : List Bool) (sent : List (List Byte)) (i : Nat) (b : Byte)
    (hlen : P.length + 5 < 65536)
    (hplan : plan.all ReadEv.delivers = true) (h3 : 3 ≤ i)
    (hi : i < (deviceFrame P).length) (hb : (deviceFrame P)[i]? ≠ some b) :
    ∃ k, ReadFrame sim ⟨⟨(deviceFrame P).set i b ++ rest, plan, script⟩, sent⟩ =
      (Res.err Err.invalidChecksum, ⟨⟨rest, plan.drop k, script⟩, sent⟩) := by
  rw [deviceFrame_parts] at hi hb ⊢
  generalize hs0 : byte ((P.length + 5) % 256) = s0 at hi hb ⊢
  generalize hs1 : byte ((P.length + 5) / 256) = s1 at hi hb ⊢
  have hsize : Uint16 s0 s1 = P.length + 5 := by
    rw [← hs0, ← hs1]; exact Uint16_size _ hlen
  have hL : ([0x55, s0, s1] ++ P).length = 3 + P.length := by
    simp only [List.length_append, List.length_cons, List.length_nil]
  by_cases hp : i < 3 + P.length
  · obtain ⟨j, rfl⟩ : ∃ j, i = 3 + j := ⟨i - 3, by omega⟩
    have hj : j < P.length := by omega
    have hset : ([0x55, s0, s1] ++ P ++ make_checksum ([0x55, s0, s1] ++ P)).set (3 + j) b
        = [0x55, s0, s1] ++ P.set j b ++ make_checksum ([0x55, s0, s1] ++ P) := by
      rw [List.set_append_left _ _ (by rw [hL]; omega),
        List.set_append_right _ _ (by simp)]
      simp
    have hget : ([0x55, s0, s1] ++ P ++ make_checksum ([0x55, s0, s1] ++ P))[3 + j]?
        = P[j]? := by
      rw [List.getElem?_append_left (by rw [hL]; omega),
        List.getElem?_append_right (by simp)]
      simp
    rw [hget] at hb
    have hne := make_checksum_set_ne [0x55, s0, s1] P j b hj hb
    obtain ⟨k, e⟩ := ReadFrame_sim_frame (P.set j b) (make_checksum ([0x55, s0, s1] ++ P))
      rest plan script sent 0x55 s0 s1 (make_checksum_length _)
      (by rw [List.length_set]; exact hsize) hplan
    exact ⟨k, by rw [hset, e, if_neg (fun h => h rfl), if_pos hne]⟩
  · generalize hchk : make_checksum ([0x55, s0, s1] ++ P) = chk at hi hb ⊢
    have hcl : chk.length = 2 := by rw [← hchk]; rfl
    have hset : ([0x55, s0, s1] ++ P ++ chk).set i b
        = [0x55, s0, s1] ++ P ++ chk.set (i - (3 + P.length)) b := by
      rw [List.set_append_right _ _ (by rw [hL]; omega), hL]
    have hget : ([0x55, s0, s1] ++ P ++ chk)[i]? = chk[i - (3 + P.length)]? := by
      rw [List.getElem?_append_right (by rw [hL]; omega), hL]
    rw [hget] at hb
    have hilt : i - (3 + P.length) < chk.length := by
      rw [List.length_append, hL] at hi
      omega
    have hne : chk.set (i - (3 + P.length)) b ≠ make_checksum ([0x55, s0, s1] ++ P) := by
      rw [hchk]
      intro h
      apply hb
      have h2 := congrArg (fun l => l[i - (3 + P.length)]?) h
      simp only [List.getElem?_set_self hilt] at h2
      exact h2.symm
    obtain ⟨k, e⟩ := ReadFrame_sim_frame P (chk.set (i - (3 + P.length)) b) rest plan script
      sent 0x55 s0 s1 (by rw [List.length_set]; exact hcl) hsize hplan
    exact ⟨k, by rw [hset, e, if_neg (fun h => h rfl), if_pos hne]⟩

/-- Witness of C19: payload `01 02 03`, first trailer byte (index 6) replaced by 0. -/
theorem ReadFrame_detects_body_corruption_witness :
    ([1, 2, 3] : List Byte).length + 5 < 65536 ∧
      ([] : List ReadEv).all ReadEv.delivers = true ∧ 3 ≤ 6 ∧
      6 < (deviceFrame [1, 2, 3]).length ∧ (deviceFrame [1, 2, 3])[6]? ≠ some 0 ∧
      ∃ k, ReadFrame sim ⟨⟨(deviceFrame [1, 2, 3]).set 6 0 ++ [9], [], []⟩, []⟩ =
        (Res.err Err.invalidChecksum, ⟨⟨[9], ([] : List ReadEv).drop k, []⟩, []⟩) :=
  ⟨by decide, by decide, by decide, by decide, by decide,
    ReadFrame_detects_body_corruption [1, 2, 3] [9] [] [] [] 6 0 (by decide) (by decide)
      (by decide) (by decide) (by decide)⟩

theorem byteSum_perm (B B' : List Byte) (h : B.Perm B') : byteSum B = byteSum B' := by
  unfold byteSum
  exact (h.map _).sum_eq

theorem make_checksum_of_byteSum (A B : List Byte) (h : byteSum A = byteSum B) :
    make_checksum A = make_checksum B := by
  rw [make_checksum_acc, make_checksum_acc]
  congr 1
  have hA := acc16_int A 0xFFFF (by decide)
  have hB := acc16_int B 0xFFFF (by decide)
  rw [h] at hA
  omega

/-- C20: `make_checksum` gives the same result on every permutation of its input, and the
device frame of a payload `P` with the payload bytes reordered to `P'` (header and trailer
unchanged) is accepted by `ReadFrame`, which returns `P'` without error. -/
theorem checksum_order_blind (P P' rest : List Byte) (plan : List ReadEv) (script : List Bool)
    (sent : List (List Byte)) (hperm : P.Perm P') (hlen : P.length + 5 < 65536)
    (hplan : plan.all ReadEv.delivers = true) :
    make_checksum P' = make_checksum P ∧
      ∃ k, ReadFrame sim ⟨⟨[0x55] ++ LE16 (P.length + 5) ++ P' ++
          make_checksum ([0x55] ++ LE16 (P.length + 5) ++ P) ++ rest, plan, script⟩, sent⟩ =
        (Res.ok P', ⟨⟨rest, plan.drop k, script⟩, sent⟩) := by
  have hsum := byteSum_perm P P' hperm
  refine ⟨make_checksum_of_byteSum _ _ hsum.symm, ?_⟩
  have hchk : make_checksum ([0x55] ++ LE16 (P.length + 5) ++ P)
      = make_checksum ([0x55, byte ((P.length + 5) % 256), byte ((P.length + 5) / 256)] ++ P') := by
    apply make_checksum_of_byteSum
    simp only [LE16, List.singleton_append, List.cons_append, List.nil_append, byteSum_cons, hsum]
  obtain ⟨k, e⟩ := ReadFrame_sim_frame P'
    (make_checksum ([0x55] ++ LE16 (P.length + 5) ++ P)) rest plan script sent 0x55
    (byte ((P.length + 5) % 256)) (byte ((P.length + 5) / 256)) (make_checksum_length _)
    (by rw [Uint16_size _ hlen, hperm.length_eq]) hplan
  refine ⟨k, ?_⟩
  rw [if_neg (fun h => h rfl), if_neg (fun h => h hchk)] at e
  rw [← e]
  simp [LE16]

/-- Witness of C20: payload `01 02 03` reordered to `03 01 02`. -/
theorem checksum_order_blind_witness :
    ([1, 2, 3] : List Byte).Perm [3, 1, 2] ∧ ([1, 2, 3] : List Byte).length + 5 < 65536 ∧
      ([] : List ReadEv).all ReadEv.delivers = true ∧
      make_checksum [3, 1, 2] = make_checksum [1, 2, 3] ∧
      ∃ k, ReadFrame sim ⟨⟨[0x55] ++ LE16 (([1, 2, 3] : List Byte).length + 5) ++ [3, 1, 2] ++
          make_checksum ([0x55] ++ LE16 (([1, 2, 3] : List Byte).length + 5) ++ [1, 2, 3]) ++
          [], [], []⟩, []⟩ =
        (Res.ok [3, 1, 2], ⟨⟨[], ([] : List ReadEv).drop k, []⟩, []⟩) :=
  ⟨by decide, by decide, by decide,
    (checksum_order_blind [1, 2, 3] [3, 1, 2] [] [] [] [] (by decide) (by decide)
      (by decide)).1,
    (checksum_order_blind [1, 2, 3] [3, 1, 2] [] [] [] [] (by decide) (by decide)
      (by decide)).2⟩

/-! ## Partial reads -/

theorem tap_read (T : Serial σ) (d : σ) (log : List ReadRecord) (m : Nat) :
    (tap T).read (d, log) m =
      ((T.read d m).1, ((T.read d m).2, log ++ [(m, (T.read d m).1)])) := rfl

theorem delivered_cons (e : ReadRecord) (log : List ReadRecord) :
    delivered (e :: log) = e.2.data ++ delivered log := by
  simp [delivered]

theorem delivered_append (a b : List ReadRecord) :
    delivered (a ++ b) = delivered a ++ delivered b := by
  simp [delivered]

theorem ReadAllLoop_tap (T : Serial σ) (turns : Nat) :
    ∀ (missing : Nat) (acc : List Byte) (d : σ) (log0 : List ReadRecord)
      (sent : List (List Byte)), missing ≤ turns →
      ∃ log1, (ReadAllLoop (tap T) turns missing acc ⟨(d, log0), sent⟩).2.dev.2 = log0 ++ log1 ∧
        requestsOk missing log1 = true ∧
        Ended (ReadAllLoop (tap T) turns missing acc ⟨(d, log0), sent⟩).1 acc missing log1 := by
  induction turns with
  | zero =>
    intro missing acc d log0 sent hm
    have h0 : missing = 0 := by omega
    subst h0
    refine ⟨[], by simp [ReadAllLoop], rfl, Or.inl ⟨by simp [ReadAllLoop, delivered], rfl, ?_⟩⟩
    intro e he; simp at he
  | succ turns ih =>
    intro missing acc d log0 sent hm
    by_cases h0 : missing = 0
    · subst h0
      refine ⟨[], by simp [ReadAllLoop], rfl,
        Or.inl ⟨by simp [ReadAllLoop, delivered], rfl, ?_⟩⟩
      intro e he; simp at he
    · rw [ReadAllLoop, if_neg h0]
      simp only [tap_read]
      have hle := T.read_le d missing
      generalize T.read d missing = r at hle ⊢
      obtain ⟨⟨data, err⟩, d1⟩ := r
      simp only at hle ⊢
      cases err with
      | some code =>
        refine ⟨[(missing, ⟨data, some code⟩)], rfl, by simp [requestsOk],
          Or.inr (Or.inr ⟨code, rfl, [], _, rfl, ?_, rfl⟩)⟩
        intro e he; simp at he
      | none =>
        simp only []
        by_cases hd : data.length = 0
        · rw [if_pos hd]
          refine ⟨[(missing, ⟨data, none⟩)], rfl, by simp [requestsOk],
            Or.inr (Or.inl ⟨rfl, [], _, rfl, ?_, rfl, List.length_eq_zero.mp hd⟩)⟩
          intro e he; simp at he
        · rw [if_neg hd]
          obtain ⟨log1, hlog, hreq, hend⟩ := ih (missing - data.length) (acc ++ data) d1
            (log0 ++ [(missing, ⟨data, none⟩)]) sent (by omega)
          have hgood : ReadRecord.good (missing, (⟨data, none⟩ : ReadResult)) :=
            ⟨rfl, fun h => hd (List.length_eq_zero.mpr h)⟩
          refine ⟨(missing, ⟨data, none⟩) :: log1, ?_, ?_, ?_⟩
          · rw [hlog, List.append_assoc]; rfl
          · simp only [requestsOk, decide_True, Bool.true_and]
            exact hreq
          · rcases hend with ⟨hres, hlen, hall⟩ | ⟨hres, pre, last, hl, hall, h1, h2⟩ |
              ⟨code, hres, pre, last, hl, hall, h1⟩
            · refine Or.inl ⟨?_, ?_, ?_⟩
              · rw [hres, delivered_cons, List.append_assoc]
              · rw [delivered_cons, List.length_append, hlen]
                simp only
                omega
              · intro e he
                rcases List.mem_cons.mp he with rfl | he
                · exact hgood
                · exact hall e he
            · refine Or.inr (Or.inl ⟨hres, (missing, ⟨data, none⟩) :: pre, last, ?_, ?_, h1, h2⟩)
              · rw [hl]; rfl
              · intro e he
                rcases List.mem_cons.mp he with rfl | he
                · exact hgood
                · exact hall e he
            · refine Or.inr (Or.inr ⟨code, hres, (missing, ⟨data, none⟩) :: pre, last, ?_, ?_, h1⟩)
              · rw [hl]; rfl
              · intro e he
                rcases List.mem_cons.mp he with rfl | he
                · exact hgood
                · exact hall e he

/-- The recorder changes nothing: the read loop on the recorded port returns what it returns
on the port itself. -/
theorem ReadAllLoop_tap_fst (T : Serial σ) (turns : Nat) :
    ∀ (missing : Nat) (acc : List Byte) (d : σ) (log0 : List ReadRecord)
      (sent : List (List Byte)),
      (ReadAllLoop (tap T) turns missing acc ⟨(d, log0), sent⟩).1 =
        (ReadAllLoop T turns missing acc ⟨d, sent⟩).1 := by
  induction turns with
  | zero => intro missing acc d log0 sent; rfl
  | succ turns ih =>
    intro missing acc d log0 sent
    rw [ReadAllLoop, ReadAllLoop]
    by_cases h0 : missing = 0
    · rw [if_pos h0, if_pos h0]
    · rw [if_neg h0, if_neg h0]
      simp only [tap_read]
      generalize T.read d missing = r
      obtain ⟨⟨data, err⟩, d1⟩ := r
      cases err with
      | some code => rfl
      | none =>
        simp only []
        by_cases hd : data.length = 0
        · rw [if_pos hd, if_pos hd]
        · rw [if_neg hd, if_neg hd]
          exact ih _ _ _ _ _

theorem ReadAll_nat (T : Serial σ) (s : Port σ) (n : Nat) :
    ReadAll T s (n : Int) = ReadAllLoop T n n [] s := by
  rw [ReadAll, if_neg (by omega), Int.toNat_ofNat]

/-- C14: for every port and every `n ≥ 0`, with the reads of `ReadAll(n)` recorded: each read
asks for exactly the bytes still missing; if every read stores at least one byte without
error, `ReadAll` returns the bytes stored, in the order of arrival, and they are exactly `n`;
it fails with the read-timeout error exactly when one of its reads stores nothing without
error; and a buffer it returns is never partial. -/
theorem ReadAll_over_partial_reads (T : Serial σ) (d : σ) (sent : List (List Byte)) (n : Nat) :
    (ReadAll (tap T) ⟨(d, []), sent⟩ n).1 = (ReadAll T ⟨d, sent⟩ n).1 ∧
      requestsOk n (ReadAll (tap T) ⟨(d, []), sent⟩ n).2.dev.2 = true ∧
      ((∀ e ∈ (ReadAll (tap T) ⟨(d, []), sent⟩ n).2.dev.2, e.good) →
        (ReadAll T ⟨d, sent⟩ n).1 =
            Res.ok (delivered (ReadAll (tap T) ⟨(d, []), sent⟩ n).2.dev.2) ∧
          (delivered (ReadAll (tap T) ⟨(d, []), sent⟩ n).2.dev.2).length = n) ∧
      ((ReadAll T ⟨d, sent⟩ n).1 = Res.err Err.readTimeout ↔
        ∃ e ∈ (ReadAll (tap T) ⟨(d, []), sent⟩ n).2.dev.2, e.2.err = none ∧ e.2.data = []) ∧
      (∀ buf, (ReadAll T ⟨d, sent⟩ n).1 = Res.ok buf →
        buf = delivered (ReadAll (tap T) ⟨(d, []), sent⟩ n).2.dev.2 ∧ buf.length = n) := by
  have hfst : (ReadAll (tap T) ⟨(d, []), sent⟩ n).1 = (ReadAll T ⟨d, sent⟩ n).1 := by
    rw [ReadAll_nat, ReadAll_nat]
    exact ReadAllLoop_tap_fst T n n [] d [] sent
  obtain ⟨log, hlog, hreq, hend⟩ := ReadAllLoop_tap T n n [] d [] sent le_rfl
  rw [← ReadAll_nat, List.nil_append] at hlog
  rw [← ReadAll_nat, hfst, Ended] at hend
  simp only [List.nil_append] at hend
  rw [hlog]
  refine ⟨hfst, hreq, ?_, ?_, ?_⟩
  · intro hall
    rcases hend with ⟨hres, hlen, -⟩ | ⟨-, pre, last, hl, -, h1, h2⟩ |
      ⟨code, -, pre, last, hl, -, h1⟩
    · exact ⟨hres, hlen⟩
    · exact absurd h2 (hall last (by rw [hl]; simp)).2
    · have := (hall last (by rw [hl]; simp)).1
      rw [h1] at this; exact absurd this (by simp)
  · constructor
    · intro hres
      rcases hend with ⟨h, -, -⟩ | ⟨-, pre, last, hl, -, h1, h2⟩ | ⟨code, h, -⟩
      · rw [h] at hres; exact Res.noConfusion hres
      · exact ⟨last, by rw [hl]; simp, h1, h2⟩
      · rw [h] at hres
        simp only [Res.err.injEq] at hres
        exact Err.noConfusion hres
    · rintro ⟨e, he, h1, h2⟩
      rcases hend with ⟨-, -, hall⟩ | ⟨h, -⟩ | ⟨code, -, pre, last, hl, hall, hc⟩
      · exact absurd h2 (hall e he).2
      · exact h
      · rw [hl] at he
        rcases List.mem_append.mp he with he | he
        · exact absurd h2 (hall e he).2
        · rw [List.mem_singleton.mp he, hc] at h1
          exact absurd h1 (by simp)
  · intro buf hbuf
    rcases hend with ⟨h, hlen, -⟩ | ⟨h, -⟩ | ⟨code, h, -⟩
    · rw [h] at hbuf
      simp only [Res.ok.injEq] at hbuf
      rw [← hbuf]
      exact ⟨rfl, hlen⟩
    · rw [h] at hbuf; exact Res.noConfusion hbuf
    · rw [h] at hbuf; exact Res.noConfusion hbuf

/-- Witness of C14 on the simulated line: five bytes waiting, reads of two and one byte, then
whatever is asked for; and the same with only two bytes waiting. -/
theorem ReadAll_over_partial_reads_witness :
    (ReadAll (tap sim) ⟨(⟨[1, 2, 3, 4, 5], [ReadEv.upTo 2, ReadEv.upTo 1], []⟩, []), []⟩ 4).1 =
        Res.ok [1, 2, 3, 4] ∧
      (ReadAll (tap sim)
          ⟨(⟨[1, 2, 3, 4, 5], [ReadEv.upTo 2, ReadEv.upTo 1], []⟩, []), []⟩ 4).2.dev =
        (⟨[5], [], []⟩, [(4, ⟨[1, 2], none⟩), (2, ⟨[3], none⟩), (1, ⟨[4], none⟩)]) ∧
      (ReadAll (tap sim) ⟨(⟨[1, 2], [ReadEv.upTo 2, ReadEv.upTo 1], []⟩, []), []⟩ 4).1 =
        Res.err Err.readTimeout ∧
      (ReadAll (tap sim) ⟨(⟨[1, 2], [ReadEv.upTo 2, ReadEv.upTo 1], []⟩, []), []⟩ 4).2.dev.2 =
        [(4, ⟨[1, 2], none⟩), (2, ⟨[], none⟩)] ∧
      requestsOk 4 (ReadAll (tap sim)
        ⟨(⟨[1, 2, 3, 4, 5], [ReadEv.upTo 2, ReadEv.upTo 1], []⟩, []), []⟩ 4).2.dev.2 = true :=
  ⟨by decide, by decide, by decide, by decide,
    (ReadAll_over_partial_reads sim ⟨[1, 2, 3, 4, 5], [ReadEv.upTo 2, ReadEv.upTo 1], []⟩
      [] 4).2.1⟩

/-! ## Retrying a block, and images that end inside a block -/

theorem slice_none (xs : List Byte) (lo hi : Nat) (h : ¬ hi ≤ xs.length) :
    slice xs lo hi = none := by
  simp only [slice]
  rw [if_neg (fun hh => h hh.2)]

/-- With every exchange acknowledged, the inner loop panics at the first sub-chunk whose
slice reaches beyond the image; the sub-chunks before it have been written. -/
theorem chunkLoop_crash (T : Serial σ) (reads : Nat) (S : List Bool → σ → Prop)
    (fw : List Byte) (hack : Acks T S) (bw c : Nat) (post : List Nat) (pre : List Nat) :
    ∀ (tries : Nat) (s : Port σ) (rest : List Bool),
      (∀ x ∈ pre, bw + x + 256 ≤ fw.length) → ¬ bw + c + 256 ≤ fw.length →
      S (List.replicate pre.length true ++ rest) s.dev →
      ∃ s1, chunkLoop T reads fw bw (pre ++ c :: post) tries s = some (Flow.crash, s1) ∧
        s1.sent = s.sent ++ pre.map (chunkFrame fw bw) := by
  induction pre with
  | nil =>
    intro tries s rest _ hc _
    refine ⟨s, ?_, by simp⟩
    rw [List.nil_append, chunkLoop]
    simp only [slice_none fw (bw + c) (bw + c + 256) hc]
  | cons x pre ih =>
    intro tries s rest hin hc hS
    have hx : bw + x + 256 ≤ fw.length := hin x (List.mem_cons_self _ _)
    have hsl := slice_some fw (bw + x) (bw + x + 256) (by omega) hx
    rw [Nat.add_sub_cancel_left] at hsl
    obtain ⟨hok, hS1⟩ := hack (List.replicate pre.length true ++ rest) s
      (write_instruction (0x1800 + (bw + x)) ((fw.drop (bw + x)).take 256)) write_confirmation
      (by simpa [List.replicate_succ] using hS)
    have hsent := communicate_sent T s
      (write_instruction (0x1800 + (bw + x)) ((fw.drop (bw + x)).take 256)) write_confirmation
    obtain ⟨s1, e1, hs1⟩ := ih tries _ rest
      (fun y hy => hin y (List.mem_cons_of_mem _ hy)) hc hS1
    refine ⟨s1, ?_, ?_⟩
    · rw [List.cons_append, chunkLoop]
      simp only [hsl, write_chunk]
      generalize communicate T s
        (write_instruction (0x1800 + (bw + x)) ((fw.drop (bw + x)).take 256))
        write_confirmation = r at hok e1
      obtain ⟨r1, r2⟩ := r
      simp only at hok
      subst hok
      exact e1
    · rw [hs1, hsent]
      simp [chunkFrame]

/-- The sub-chunk offsets split at the sub-chunk number `c`. -/
theorem chunkOffsets_split (c : Nat) (hc : c < 4) :
    chunkOffsets = chunkOffsets.take c ++ (256 * c) :: chunkOffsets.drop (c + 1) ∧
      (chunkOffsets.take c).length = c ∧ ∀ x ∈ chunkOffsets.take c, x + 256 ≤ 256 * c := by
  have h : c = 0 ∨ c = 1 ∨ c = 2 ∨ c = 3 := by omega
  rcases h with rfl | rfl | rfl | rfl <;> decide

/-- On a port that acknowledges every exchange, an image whose length is `1024 * n + r` with
`0 < r < 1024` makes `update` panic in the block after the `n` whole ones, at the sub-chunk
number `r / 256`. -/
theorem update_partial_block (T : Serial σ) (reads : Nat) (S : List Bool → σ → Prop)
    (hack : Acks T S) (fw : List Byte) (s : Port σ) (rest : List Bool) (n r : Nat)
    (hlen : fw.length = 1024 * n + r) (hr0 : 0 < r) (hr : r < 1024)
    (hS : S (List.replicate (5 * n) true ++
      (true :: (List.replicate (r / 256) true ++ rest))) s.dev) :
    ∃ s1, update T reads s fw = some (Res.panic, s1) ∧
      s1.sent = s.sent ++ framesFrom fw 0 n ++
        askFrame (1024 * n) :: (chunkOffsets.take (r / 256)).map (chunkFrame fw (1024 * n)) := by
  have hn : fw.length / 1024 = n := by omega
  obtain ⟨s1, u1, hS1, hs1⟩ := blockLoop_acked T reads S fw hack n 1 0 s _ (by omega) hS
  obtain ⟨hok, hS2⟩ := hack _ s1 (ask_permission (0x1800 + (0 + 1024 * n)))
    (get_permission (0x1800 + (0 + 1024 * n))) hS1
  have hsent := communicate_sent T s1 (ask_permission (0x1800 + (0 + 1024 * n)))
    (get_permission (0x1800 + (0 + 1024 * n)))
  obtain ⟨hsplit, hlen2, hfit⟩ := chunkOffsets_split (r / 256) (by omega)
  rw [← hlen2] at hS2
  obtain ⟨s2, u2, hs2⟩ := chunkLoop_crash T reads S fw hack (0 + 1024 * n) (256 * (r / 256))
    (chunkOffsets.drop (r / 256 + 1)) (chunkOffsets.take (r / 256)) 0 _ rest
    (fun x hx => by have := hfit x hx; omega) (by omega) hS2
  rw [← hsplit] at u2
  refine ⟨s2, ?_, ?_⟩
  · rw [update, hn, Nat.add_comm n 1, u1, blockLoop_succ, if_pos (by omega), askLoop_succ]
    simp only [ask_write]
    generalize communicate T s1 (ask_permission (0x1800 + (0 + 1024 * n)))
      (get_permission (0x1800 + (0 + 1024 * n))) = q at hok u2 hsent
    obtain ⟨q1, q2⟩ := q
    simp only at hok
    subst hok
    simp only [u2]
  · rw [hs2, hsent, hs1, Nat.zero_add]
    simp [askFrame]

theorem loadImage_short (raw : List Byte) (h1 : 0x9000 ≤ raw.length)
    (h2 : raw.length ≤ 0xE7FF) : loadImage raw = Res.ok raw := by
  unfold loadImage
  rw [stripHeader_short raw (by omega)]
  simp only []
  rw [if_neg (by omega)]

theorem script_split (n c : Nat) (rest : List Bool) :
    List.replicate (5 * n) true ++ (true :: (List.replicate c true ++ rest))
      = List.replicate (5 * n + 1 + c) true ++ rest := by
  rw [List.replicate_add, List.replicate_add]
  simp

/-- C17 (what the code does): the loader passes on images of `0x9001` and of `0xE7FF` bytes,
both inside `[0x9000, 0xE7FF]`; on a port that acknowledges every exchange `update` panics
on each of them, at the slice `firmware[0x9000 : 0x9100]` of the first and at the slice
`firmware[0xE700 : 0xE800]` of the second, which reach beyond the image. -/
theorem update_slices_out_of_range :
    0x9000 ≤ (make 0x9001).length ∧ (make 0x9001).length ≤ 0xE7FF ∧
      loadImage (make 0x9001) = Res.ok (make 0x9001) ∧
      slice (make 0x9001) 0x9000 (0x9000 + 256) = none ∧
      (∃ s1, update sim 1 ⟨⟨[], [], List.replicate 181 true⟩, []⟩ (make 0x9001) =
        some (Res.panic, s1)) ∧
      0x9000 ≤ (make 0xE7FF).length ∧ (make 0xE7FF).length ≤ 0xE7FF ∧
      loadImage (make 0xE7FF) = Res.ok (make 0xE7FF) ∧
      slice (make 0xE7FF) (0xE400 + 768) (0xE400 + 768 + 256) = none ∧
      (∃ s1, update sim 1 ⟨⟨[], [], List.replicate 289 true⟩, []⟩ (make 0xE7FF) =
        some (Res.panic, s1)) := by
  have hA : (make 0x9001).length = 0x9001 := make_length _
  have hB : (make 0xE7FF).length = 0xE7FF := make_length _
  refine ⟨by rw [hA]; decide, by rw [hA]; decide, loadImage_short _ (by rw [hA]; decide)
    (by rw [hA]; decide), slice_none _ _ _ (by rw [hA]; decide), ?_,
    by rw [hB]; decide, by rw [hB], loadImage_short _ (by rw [hB]; decide) (by rw [hB]),
    slice_none _ _ _ (by rw [hB]; decide), ?_⟩
  · obtain ⟨s1, h, -⟩ := update_partial_block sim 1 Idle sim_acks (make 0x9001)
      ⟨⟨[], [], List.replicate 181 true⟩, []⟩ [] 36 1 (by rw [hA]) (by decide) (by decide)
      (by rw [Idle, script_split, List.append_nil])
    exact ⟨s1, h⟩
  · obtain ⟨s1, h, -⟩ := update_partial_block sim 1 Idle sim_acks (make 0xE7FF)
      ⟨⟨[], [], List.replicate 289 true⟩, []⟩ [] 57 1023 (by rw [hB]) (by decide) (by decide)
      (by rw [Idle, script_split, List.append_nil])
    exact ⟨s1, h⟩

theorem chunkLoop_cons (T : Serial σ) (reads : Nat) (fw : List Byte) (bw chunk : Nat)
    (rest : List Nat) (tries : Nat) (s : Port σ) :
    chunkLoop T reads fw bw (chunk :: rest) tries s =
      match slice fw (bw + chunk) (bw + chunk + 256) with
      | none => some (Flow.crash, s)
      | some data =>
        match write_chunk T s (0x1800 + (bw + chunk)) data with
        | (Res.panic, s1) => some (Flow.crash, s1)
        | (Res.ok _, s1) => chunkLoop T reads fw bw rest tries s1
        | (Res.err _, s1) =>
          if tries + 1 ≤ 3 then
            match EmptyRx T reads s1 with
            | none => none
            | some s2 => some (Flow.again (tries + 1), s2)
          else chunkLoop T reads fw bw rest (tries + 1) s1 := rfl

/-- When the inner loop ends normally, every sub-chunk of its list has been written once, in
order. -/
theorem chunkLoop_next_sent (T : Serial σ) (reads : Nat) (fw : List Byte) (bw : Nat)
    (cs : List Nat) :
    ∀ (tries t : Nat) (s s1 : Port σ),
      chunkLoop T reads fw bw cs tries s = some (Flow.next t, s1) →
      s1.sent = s.sent ++ cs.map (chunkFrame fw bw) := by
  induction cs with
  | nil =>
    intro tries t s s1 h
    simp only [chunkLoop, Option.some.injEq, Prod.mk.injEq] at h
    rw [← h.2]; simp
  | cons c cs ih =>
    intro tries t s s1 h
    rw [chunkLoop_cons] at h
    by_cases hc : bw + c + 256 ≤ fw.length
    · have hsl := slice_some fw (bw + c) (bw + c + 256) (by omega) hc
      rw [Nat.add_sub_cancel_left] at hsl
      have hsent := communicate_sent T s
        (write_instruction (0x1800 + (bw + c)) ((fw.drop (bw + c)).take 256)) write_confirmation
      simp only [hsl, write_chunk] at h
      rcases hq : communicate T s
        (write_instruction (0x1800 + (bw + c)) ((fw.drop (bw + c)).take 256))
        write_confirmation with ⟨q1, q2⟩
      rw [hq] at h hsent
      simp only at hsent
      cases q1 with
      | panic => simp at h
      | ok u =>
        simp only at h
        rw [ih _ _ _ _ h, hsent]
        simp [chunkFrame]
      | err e =>
        simp only at h
        by_cases ht : tries + 1 ≤ 3
        · rw [if_pos ht] at h
          cases hE : EmptyRx T reads q2 with
          | none => rw [hE] at h; simp at h
          | some s2 => rw [hE] at h; simp at h
        · rw [if_neg ht] at h
          rw [ih _ _ _ _ h, hsent]
          simp [chunkFrame]
    · have hsl : slice fw (bw + c) (bw + c + 256) = none := by
        simp only [slice]
        rw [if_neg (fun hh => hc hh.2)]
      rw [hsl] at h
      simp at h

/-- The inner loop on a list in two parts: after a normal end of the first part it goes on
with the second. -/
theorem chunkLoop_append (T : Serial σ) (reads : Nat) (fw : List Byte) (bw : Nat)
    (post : List Nat) (pre : List Nat) :
    ∀ (tries t : Nat) (s sk : Port σ),
      chunkLoop T reads fw bw pre tries s = some (Flow.next t, sk) →
      chunkLoop T reads fw bw (pre ++ post) tries s = chunkLoop T reads fw bw post t sk := by
  induction pre with
  | nil =>
    intro tries t s sk h
    simp only [chunkLoop, Option.some.injEq, Prod.mk.injEq, Flow.next.injEq] at h
    rw [List.nil_append, h.1, h.2]
  | cons c pre ih =>
    intro tries t s sk h
    rw [chunkLoop_cons] at h
    rw [List.cons_append, chunkLoop_cons]
    cases hsl : slice fw (bw + c) (bw + c + 256) with
    | none => rw [hsl] at h; simp at h
    | some data =>
      rw [hsl] at h
      simp only at h ⊢
      rcases hq : write_chunk T s (0x1800 + (bw + c)) data with ⟨q1, q2⟩
      rw [hq] at h
      cases q1 with
      | panic => simp at h
      | ok u => simp only at h ⊢; exact ih _ _ _ _ h
      | err e =>
        simp only at h ⊢
        by_cases ht : tries + 1 ≤ 3
        · rw [if_pos ht] at h
          cases hE : EmptyRx T reads q2 with
          | none => rw [hE] at h; simp at h
          | some s2 => rw [hE] at h; simp at h
        · rw [if_neg ht] at h ⊢
          exact ih _ _ _ _ h

theorem chunkOffsets_take_succ (c : Nat) (hc : c < 4) :
    chunkOffsets.take (c + 1) = chunkOffsets.take c ++ [256 * c] := by
  have h : c = 0 ∨ c = 1 ∨ c = 2 ∨ c = 3 := by omega
  rcases h with rfl | rfl | rfl | rfl <;> decide

/-- C16: in the block at `bytes_written`, after an acknowledged `ask_write` and `k`
sub-chunks that went through, a failing `write_chunk` for sub-chunk `k` (`k` in 0..3) with
fewer than 3 failures counted makes `update` run `EmptyRx` on the port and jump to the label
`ask` with the same block offset and one more try: the frames written so far are the request
and the sub-chunks 0..k, and when the next request is acknowledged the frames that follow
are the request for the same address and the sub-chunks from 0 again. -/
theorem update_retries_whole_block (T : Serial σ) (reads : Nat) (fw : List Byte)
    (bw gas tries k : Nat)
    (s sa sk s1 s2 : Port σ) (e : Err) (hk : k < 4) (ht : tries < 3)
    (hfit : bw + 256 * k + 256 ≤ fw.length)
    (hask : ask_write T s (0x1800 + bw) = (Res.ok (), sa))
    (hpre : chunkLoop T reads fw bw (chunkOffsets.take k) tries sa = some (Flow.next tries, sk))
    (hfail : write_chunk T sk (0x1800 + (bw + 256 * k)) ((fw.drop (bw + 256 * k)).take 256)
      = (Res.err e, s1))
    (hdrain : EmptyRx T reads s1 = some s2) :
    askLoop T reads fw bw (gas + 2) tries s = askLoop T reads fw bw (gas + 1) (tries + 1) s2 ∧
      s2.sent = s.sent ++ askFrame bw :: (chunkOffsets.take (k + 1)).map (chunkFrame fw bw) ∧
      ∀ (s3 s4 : Port σ) (t : Nat), ask_write T s2 (0x1800 + bw) = (Res.ok (), s3) →
        chunkLoop T reads fw bw chunkOffsets (tries + 1) s3 = some (Flow.next t, s4) →
        askLoop T reads fw bw (gas + 2) tries s = some (Res.ok (), s4) ∧
          s4.sent = s2.sent ++ askFrame bw :: chunkOffsets.map (chunkFrame fw bw) := by
  obtain ⟨hsplit, -, -⟩ := chunkOffsets_split k hk
  have hsl := slice_some fw (bw + 256 * k) (bw + 256 * k + 256) (by omega) hfit
  rw [Nat.add_sub_cancel_left] at hsl
  have hloop : chunkLoop T reads fw bw chunkOffsets tries sa
      = some (Flow.again (tries + 1), s2) := by
    have h := chunkLoop_append T reads fw bw ((256 * k) :: chunkOffsets.drop (k + 1))
      (chunkOffsets.take k) tries tries sa sk hpre
    rw [← hsplit] at h
    rw [h, chunkLoop_cons, hsl]
    simp only [hfail]
    rw [if_pos (by omega), hdrain]
  have hgo : askLoop T reads fw bw (gas + 2) tries s
      = askLoop T reads fw bw (gas + 1) (tries + 1) s2 := by
    rw [askLoop_succ, hask]
    simp only [hloop]
  have hsa : sa.sent = s.sent ++ [askFrame bw] := by
    have h := communicate_sent T s (ask_permission (0x1800 + bw)) (get_permission (0x1800 + bw))
    rw [← ask_write, hask] at h
    exact h
  have hsk := chunkLoop_next_sent T reads fw bw _ _ _ _ _ hpre
  have hs1 : s1.sent = sk.sent ++ [chunkFrame fw bw (256 * k)] := by
    have h := communicate_sent T sk
      (write_instruction (0x1800 + (bw + 256 * k)) ((fw.drop (bw + 256 * k)).take 256))
      write_confirmation
    rw [← write_chunk, hfail] at h
    exact h
  have hs2 := EmptyRx_sent T reads _ _ hdrain
  refine ⟨hgo, ?_, ?_⟩
  · rw [hs2, hs1, hsk, hsa, chunkOffsets_take_succ k hk]
    simp
  · intro s3 s4 t hask2 hall
    refine ⟨?_, ?_⟩
    · rw [hgo, askLoop_succ, hask2]
      simp only [hall]
    · have h3 : s3.sent = s2.sent ++ [askFrame bw] := by
        have h := communicate_sent T s2 (ask_permission (0x1800 + bw))
          (get_permission (0x1800 + bw))
        rw [← ask_write, hask2] at h
        exact h
      rw [chunkLoop_next_sent T reads fw bw _ _ _ _ _ hall, h3]
      simp

/-- Witness of C16: a 1024-byte image on the simulated line; the request and sub-chunk 0
are answered, sub-chunk 1 is not. -/
theorem update_retries_whole_block_witness :
    (1 : Nat) < 4 ∧ (0 : Nat) < 3 ∧ 0 + 256 * 1 + 256 ≤ (make 1024).length ∧
      ∃ (sa sk s1 s2 : Port Sim) (e : Err),
        ask_write sim ⟨⟨[], [], [true, true, false, true, true, true, true, true]⟩, []⟩
          (0x1800 + 0) = (Res.ok (), sa) ∧
        chunkLoop sim 1 (make 1024) 0 (chunkOffsets.take 1) 0 sa = some (Flow.next 0, sk) ∧
        write_chunk sim sk (0x1800 + (0 + 256 * 1)) (((make 1024).drop (0 + 256 * 1)).take 256)
          = (Res.err e, s1) ∧
        EmptyRx sim 1 s1 = some s2 ∧
        askLoop sim 1 (make 1024) 0 (0 + 2) 0
            ⟨⟨[], [], [true, true, false, true, true, true, true, true]⟩, []⟩ =
          askLoop sim 1 (make 1024) 0 (0 + 1) (0 + 1) s2 ∧
        s2.sent =
          [] ++ askFrame 0 :: (chunkOffsets.take (1 + 1)).map (chunkFrame (make 1024) 0) := by
  have hlen : (make 1024).length = 1024 := make_length _
  have hask := communicate_sim_true [true, false, true, true, true, true, true] []
    (ask_permission (0x1800 + 0)) (get_permission (0x1800 + 0))
  obtain ⟨sk, hpre, hidle, -⟩ := chunkLoop_acked sim 1 Idle (make 1024) sim_acks 0
    (chunkOffsets.take 1) 0
    ⟨⟨[], [], [true, false, true, true, true, true, true]⟩,
      [] ++ [hostFrame (ask_permission (0x1800 + 0))]⟩
    [false, true, true, true, true, true]
    (fun c hc => by
      have h0 : c = 0 := by simpa [chunkOffsets] using hc
      rw [h0, hlen]; decide)
    rfl
  obtain ⟨d, snt⟩ := sk
  simp only [Idle] at hidle
  subst hidle
  have hfail := communicate_sim_false [true, true, true, true, true] snt
    (write_instruction (0x1800 + (0 + 256 * 1)) (((make 1024).drop (0 + 256 * 1)).take 256))
    write_confirmation
  have hdrain := EmptyRx_sim_idle 0 [true, true, true, true, true]
    (snt ++ [hostFrame (write_instruction (0x1800 + (0 + 256 * 1))
      (((make 1024).drop (0 + 256 * 1)).take 256))])
  have hfit : 0 + 256 * 1 + 256 ≤ (make 1024).length := by rw [hlen]; decide
  have h := update_retries_whole_block sim 1 (make 1024) 0 0 0 1 _ _ _ _ _ _ (by decide)
    (by decide) hfit hask hpre hfail hdrain
  exact ⟨by decide, by decide, hfit, _, _, _, _, _, hask, hpre, hfail, hdrain, h.1, h.2.1⟩

end Flysky
